import Mathlib

/-!
Verification development for the PDF-DocConverter repository.

The Python sources (`app.py`, `models.py`) are shallowly embedded below:

* `process_page_with_gemini` models the per-page OCR processor of
  `app.py` lines 76-117, with the textual error classification and the
  exponential-backoff retry loop made explicit (sleeps are recorded as a
  list of delay durations instead of being performed).
* `markdown_to_text` and `markdown_to_html` model the pure renderers of
  `app.py` lines 168-217; the Python regular-expression substitutions are
  implemented as character-list transformations with the same semantics
  (multiline anchors, greedy and lazy quantifiers, dot-excludes-newline).
* `save_progress` / `load_progress` / `clear_progress` model the
  single-slot checkpoint file of `app.py` lines 49-64, with the on-disk
  JSON layer made explicit.
* `run` models the conversion orchestrator of `show_converter_page`
  (`app.py` lines 342-595): the per-file pipeline with forward pass,
  periodic checkpointing, cooperative cancellation, retry sweep, output
  generation, and the job-ledger calls of `models.py`, which are recorded
  as an event trace.

External collaborators (Streamlit UI, Gemini client, the SQL ledger, the
file system) are modelled at their call boundaries: the AI call is an
injected function, ledger calls become trace events, the checkpoint file
is a single mutable slot.
-/

namespace PDF

/-! Basic string machinery shared by the embedded functions.  Python
string operations are modelled on `List Char`. -/

/-- Python whitespace class `\s` (ASCII part), as used by `str.strip` and
the regex substitutions in `app.py`. -/
def isSpace (c : Char) : Bool :=
  c == ' ' || c == '\n' || c == '\t' || c == '\r' || c == '\x0b' || c == '\x0c'

/-- Test whether `needle` is a leading segment of `hay`. -/
def begMatch : List Char → List Char → Bool
  | [], _ => true
  | _ :: _, [] => false
  | a :: as, b :: bs => a == b && begMatch as bs

/-- Python `needle in hay` substring test. -/
def hasSub (needle : List Char) : List Char → Bool
  | [] => needle.isEmpty
  | c :: cs => begMatch needle (c :: cs) || hasSub needle cs

/-- Substring test on `String`, Python `needle in hay`. -/
def strHas (needle hay : String) : Bool :=
  hasSub needle.toList hay.toList

/-- Python `str.lower()` (ASCII behaviour). -/
def pyLower (s : String) : String :=
  String.mk (s.toList.map Char.toLower)

/-! OcrPageProcessor: `process_page_with_gemini` (`app.py` lines 76-117).
The Gemini call is an injected capability `ai : Nat → GeminiResult`
giving, for each attempt number, either the response text or the string
representation of the raised exception. -/

/-- Outcome of one `client.models.generate_content` call: a response text
or a raised exception rendered as `str(e)`. -/
inductive GeminiResult
  | ok (text : String)
  | err (msg : String)

/-- Rate-limit classification of `app.py` line 104: `"429" in str(e) or
"resource exhausted" in error_str or "quota" in error_str` where
`error_str = str(e).lower()`. -/
def isRateLimit (e : String) : Bool :=
  strHas ("429") e || strHas ("resource exhausted") (pyLower e) ||
    strHas ("quota") (pyLower e)

/-- Server-error classification of `app.py` line 108: `"500" in str(e) or
"503" in str(e) or "internal" in error_str or "unavailable" in error_str`. -/
def isServerErr (e : String) : Bool :=
  strHas ("500") e || strHas ("503") e || strHas ("internal") (pyLower e) ||
    strHas ("unavailable") (pyLower e)

/-- Result of `process_page_with_gemini`: the returned `(text, success)`
pair together with the observable retry behaviour, namely the number of
AI calls made and the list of back-off sleep durations in seconds. -/
structure PageRun where
  text : String
  success : Bool
  attempts : Nat
  delays : List Nat
deriving DecidableEq, Repr

/-- Retry budget `max_retries = 5` of `app.py` line 80. -/
def max_retries : Nat := 5

/-- Back-off base `base_delay = 6` of `app.py` line 81. -/
def base_delay : Nat := 6

/-- The retry loop of `app.py` lines 83-117.  `attempt` is the current
attempt index, the second argument the number of attempts remaining.  On
a transient failure the loop sleeps `base_delay * 2 ^ attempt` seconds and
retries; on any other failure it returns `("", false)` at once; exhausting
the budget returns `("", false)`. -/
def processAttempt (ai : Nat → GeminiResult) (attempt : Nat) : Nat → PageRun
  | 0 => { text := "", success := false, attempts := 0, delays := [] }
  | fuel + 1 =>
    match ai attempt with
    | .ok t => { text := t, success := true, attempts := 1, delays := [] }
    | .err e =>
      if isRateLimit e || isServerErr e then
        let d := base_delay * 2 ^ attempt
        let rest := processAttempt ai (attempt + 1) fuel
        { text := rest.text, success := rest.success,
          attempts := rest.attempts + 1, delays := d :: rest.delays }
      else { text := "", success := false, attempts := 1, delays := [] }

/-- The per-page processor `process_page_with_gemini` (`app.py` lines
76-117).  The page image, page number and prompt only feed the injected
AI call and the log sink, so the processor is parameterised directly by
the per-attempt call outcome. -/
def process_page_with_gemini (ai : Nat → GeminiResult) : PageRun :=
  processAttempt ai 0 max_retries

/-! MarkupRenderer: `markdown_to_text` (`app.py` lines 168-182) and
`markdown_to_html` (`app.py` lines 184-217).  The Python regex
substitutions are implemented on `List Char` with the exact semantics of
the patterns used: `^` in MULTILINE mode anchors at string start or after
a newline, `\s+` is greedy and may cross newlines, `(.*?)` is lazy and
never matches a newline, and replacement output is not rescanned. -/

/-- Python `str.split('\n')`: split at every newline, keeping empty
segments. -/
def splitNL : List Char → List (List Char)
  | [] => [[]]
  | c :: cs =>
    if c == '\n' then [] :: splitNL cs
    else
      match splitNL cs with
      | h :: t => (c :: h) :: t
      | [] => [[c]]

/-- Python `str.strip()`: remove whitespace from both ends. -/
def pyStripL (l : List Char) : List Char :=
  ((l.dropWhile isSpace).reverse.dropWhile isSpace).reverse

/-- Greedily consume up to `m` leading hash characters, returning the
count and the remainder (regex `#{1,6}` with `m = 6`). -/
def countHash : Nat → List Char → Nat × List Char
  | 0, l => (0, l)
  | _ + 1, [] => (0, [])
  | m + 1, c :: cs =>
    if c == '#' then
      let r := countHash m cs
      (r.1 + 1, r.2)
    else (0, c :: cs)

/-- Greedy tail of a whitespace run: consume while whitespace, tracking
the last consumed character (needed to know whether the position after
the match is a line start). -/
def spaceRunGo (lastc : Char) : List Char → List Char × Char
  | [] => ([], lastc)
  | c :: cs => if isSpace c then spaceRunGo c cs else (c :: cs, lastc)

/-- Regex `\s+` (greedy, at least one whitespace character, newlines
included): the remainder after the maximal run and the last consumed
character, or `none` when the head is not whitespace. -/
def spaceRun : List Char → Option (List Char × Char)
  | [] => none
  | c :: cs => if isSpace c then some (spaceRunGo c cs) else none

/-- Match `#{1,6}\s+` at the current position (`app.py` line 172). -/
def hashMatch (l : List Char) : Option (List Char × Char) :=
  let r := countHash 6 l
  if r.1 == 0 then none else spaceRun r.2

/-- Match `[-*]\s+` at the current position (`app.py` line 175). -/
def bulletMatch : List Char → Option (List Char × Char)
  | [] => none
  | c :: cs => if c == '-' || c == '*' then spaceRun cs else none

/-- Greedily consume a run of decimal digits (regex `\d+`). -/
def digitRun : List Char → Nat × List Char
  | [] => (0, [])
  | c :: cs =>
    if c.isDigit then
      let r := digitRun cs
      (r.1 + 1, r.2)
    else (0, c :: cs)

/-- Match `\d+\.\s+` at the current position (`app.py` line 176). -/
def ordMatch (l : List Char) : Option (List Char × Char) :=
  let r := digitRun l
  if r.1 == 0 then none
  else
    match r.2 with
    | '.' :: r2 => spaceRun r2
    | _ => none

/-- Delete every occurrence of a line-anchored pattern, scanning left to
right as `re.sub(..., '', text, flags=re.MULTILINE)` does: the matcher is
tried exactly at line starts, a match is removed and scanning resumes
after it, and the line-start flag is carried by the last character seen.
The fuel argument bounds recursion; callers pass `length + 1`, which is
sufficient since every step consumes at least one character. -/
def lineSub (m : List Char → Option (List Char × Char)) :
    Nat → Bool → List Char → List Char
  | 0, _, l => l
  | _ + 1, _, [] => []
  | fuel + 1, atStart, c :: cs =>
    if atStart then
      match m (c :: cs) with
      | some r => lineSub m fuel (r.2 == '\n') r.1
      | none => c :: lineSub m fuel (c == '\n') cs
    else c :: lineSub m fuel (c == '\n') cs

/-- Lazy scan for the span body of `(.*?)` followed by `close`: returns
the shortest inner segment (never crossing a newline, as `.` excludes
newlines) and the remainder after the closing delimiter. -/
def scanInner (close : List Char) : List Char → Option (List Char × List Char)
  | [] => none
  | c :: cs =>
    if begMatch close (c :: cs) then some ([], (c :: cs).drop close.length)
    else if c == '\n' then none
    else
      match scanInner close cs with
      | some r => some (c :: r.1, r.2)
      | none => none

/-- Replace every `opn (.*?) close` span by `pre ++ inner ++ post`,
scanning left to right without rescanning replacements, as `re.sub` does
for the bold and italic patterns of `app.py` lines 173-174 and 212-213.
Fuel as in `lineSub`. -/
def subSpan (opn close pre post : List Char) : Nat → List Char → List Char
  | 0, l => l
  | _ + 1, [] => []
  | fuel + 1, c :: cs =>
    if begMatch opn (c :: cs) then
      match scanInner close ((c :: cs).drop opn.length) with
      | some r => pre ++ r.1 ++ post ++ subSpan opn close pre post fuel r.2
      | none => c :: subSpan opn close pre post fuel cs
    else c :: subSpan opn close pre post fuel cs

/-- Per-page body of `markdown_to_text` (`app.py` lines 171-176): strip
heading markers, bold markers, italic markers, bullet markers and ordered
list markers, in that order. -/
def pageToText (s : String) : String :=
  let l0 := s.toList
  let l1 := lineSub hashMatch (l0.length + 1) true l0
  let l2 := subSpan (("**").toList) (("**").toList) [] [] (l1.length + 1) l1
  let l3 := subSpan (("*").toList) (("*").toList) [] [] (l2.length + 1) l2
  let l4 := lineSub bulletMatch (l3.length + 1) true l3
  let l5 := lineSub ordMatch (l4.length + 1) true l4
  String.mk l5

/-- The plain-text renderer `markdown_to_text` (`app.py` lines 168-182):
pages joined with the literal separator line, which is inserted before
every page except the first. -/
def markdown_to_text : List String → String
  | [] => ""
  | p :: rest =>
    pageToText p ++
      String.join (rest.map fun q => ("\n\n--- Page Break ---\n\n") ++ pageToText q)

/-- The fixed document shell opening of `markdown_to_html`
(`app.py` line 185). -/
def htmlHead : String :=
  "<!DOCTYPE html><html><head><meta charset=\"utf-8\"><style>body\x7bfont-family:Arial,sans-serif;max-width:800px;margin:0 auto;padding:20px;\x7dh1,h2,h3,h4\x7bcolor:#333;\x7dtable\x7bborder-collapse:collapse;width:100%;\x7dtd,th\x7bborder:1px solid #ddd;padding:8px;\x7d.page-break\x7bpage-break-after:always;border-bottom:2px dashed #ccc;margin:30px 0;\x7d</style></head><body>"

/-- The condition `re.match(r'^\d+\. ', line)` of `app.py` line 208:
digits, a dot, then a single literal space. -/
def ordMatchHtml (l : List Char) : Bool :=
  let r := digitRun l
  r.1 != 0 && begMatch ((". ").toList) r.2

/-- The substitution `re.sub(r'^\d+\. ', '', text)` of `app.py` line 209. -/
def dropOrdHtml (l : List Char) : List Char :=
  let r := digitRun l
  if r.1 != 0 then
    match r.2 with
    | '.' :: ' ' :: rest => rest
    | _ => l
  else l

/-- Per-line classification of `markdown_to_html` (`app.py` lines
192-214): strip, blank line to an empty paragraph, heading prefixes to
heading tags, list markers to list-item tags, otherwise bold and italic
spans to inline tags inside a paragraph.  No character of the line body is
escaped. -/
def htmlLine (l : List Char) : List Char :=
  let t := pyStripL l
  if t.isEmpty then ("<p></p>").toList
  else if begMatch (("#### ").toList) t then
    ("<h4>").toList ++ t.drop 5 ++ ("</h4>").toList
  else if begMatch (("### ").toList) t then
    ("<h3>").toList ++ t.drop 4 ++ ("</h3>").toList
  else if begMatch (("## ").toList) t then
    ("<h2>").toList ++ t.drop 3 ++ ("</h2>").toList
  else if begMatch (("# ").toList) t then
    ("<h1>").toList ++ t.drop 2 ++ ("</h1>").toList
  else if begMatch (("- ").toList) t || begMatch (("* ").toList) t then
    ("<li>").toList ++ t.drop 2 ++ ("</li>").toList
  else if ordMatchHtml t then ("<li>").toList ++ dropOrdHtml t ++ ("</li>").toList
  else
    let b := subSpan (("**").toList) (("**").toList)
      (("<strong>").toList) (("</strong>").toList) (t.length + 1) t
    let e := subSpan (("*").toList) (("*").toList)
      (("<em>").toList) (("</em>").toList) (b.length + 1) b
    ("<p>").toList ++ e ++ ("</p>").toList

/-- Per-page body of `markdown_to_html`: split into lines and classify
each line independently. -/
def pageToHtml (s : String) : List Char :=
  ((splitNL s.toList).map htmlLine).flatten

/-- Page sequence of `markdown_to_html` with the page-break divider
inserted before every page except the first (`app.py` lines 187-189). -/
def htmlBodyParts : List String → List Char
  | [] => []
  | p :: rest =>
    pageToHtml p ++
      (rest.map fun q =>
        (("<div class=\"page-break\"></div>").toList ++ pageToHtml q)).flatten

/-- The hypertext renderer `markdown_to_html` (`app.py` lines 184-217). -/
def markdown_to_html (pages : List String) : String :=
  String.mk (htmlHead.toList ++ htmlBodyParts pages ++ ("</body></html>").toList)

/-! CheckpointStore: `save_progress` / `load_progress` / `clear_progress`
(`app.py` lines 49-64).  The progress file holds either raw text that
fails JSON parsing (a corrupted file) or a parsed JSON value; `json.dump`
and `json.load` are the trusted external serialisation layer, so the file
is modelled at the JSON-value boundary. -/

/-- The checkpoint record written by `save_progress` (`app.py` lines
415-422 and 468-475): exactly the keys of the progress dictionary. -/
structure Checkpoint where
  total_pages : Nat
  completed_pages : Nat
  markdown_pages : List String
  failed_pages : List Nat
  filename : String
  job_id : Option Nat
deriving DecidableEq, Repr

/-- JSON values as produced and consumed by the progress file. -/
inductive Json
  | null
  | str (s : String)
  | num (n : Nat)
  | arr (xs : List Json)
  | obj (fields : List (String × Json))

/-- Python `dict.get(key, default)` on a parsed JSON object. -/
def Json.getD (j : Json) (key : String) (d : Json) : Json :=
  match j with
  | .obj fs => (fs.lookup key).getD d
  | _ => d

/-- Read a JSON number. -/
def Json.asNat : Json → Option Nat
  | .num n => some n
  | _ => none

/-- Read a JSON string. -/
def Json.asStr : Json → Option String
  | .str s => some s
  | _ => none

/-- Read a JSON array of strings (the `markdown_pages` field). -/
def decodeStrList : Json → List String
  | .arr xs => xs.filterMap Json.asStr
  | _ => []

/-- Read a JSON array of numbers (the `failed_pages` field). -/
def decodeNatList : Json → List Nat
  | .arr xs => xs.filterMap Json.asNat
  | _ => []

/-- Read the optional `job_id` field (`None` serialises to JSON null). -/
def decodeJobId : Json → Option Nat
  | .num n => some n
  | _ => none

/-- Serialisation of the progress dictionary passed to `save_progress`. -/
def Checkpoint.toJson (c : Checkpoint) : Json :=
  .obj [(("total_pages"), .num c.total_pages),
        (("completed_pages"), .num c.completed_pages),
        (("markdown_pages"), .arr (c.markdown_pages.map Json.str)),
        (("failed_pages"), .arr (c.failed_pages.map Json.num)),
        (("filename"), .str c.filename),
        (("job_id"), match c.job_id with | some i => .num i | none => .null)]

/-- Field extraction from a loaded progress dictionary, with the
`dict.get` defaults used by the resume path (`app.py` lines 374-378). -/
def checkpointOfJson (j : Json) : Checkpoint :=
  { total_pages := ((j.getD ("total_pages") (.num 0)).asNat).getD 0,
    completed_pages := ((j.getD ("completed_pages") (.num 0)).asNat).getD 0,
    markdown_pages := decodeStrList (j.getD ("markdown_pages") (.arr [])),
    failed_pages := decodeNatList (j.getD ("failed_pages") (.arr [])),
    filename := ((j.getD ("filename") (.str "")).asStr).getD "",
    job_id := decodeJobId (j.getD ("job_id") .null) }

/-- State of the single-slot progress file: absent, unparsable text, or a
parsed JSON value. -/
abbrev ProgressFile := Option (Sum String Json)

/-- The checkpoint writer `save_progress` (`app.py` lines 49-51):
overwrite the single slot with the serialised dictionary. -/
def save_progress (data : Json) (_file : ProgressFile) : ProgressFile :=
  some (.inr data)

/-- The checkpoint reader `load_progress` (`app.py` lines 53-60): a
missing file or a parse failure yields `None` instead of raising. -/
def load_progress : ProgressFile → Option Json
  | none => none
  | some (.inl _) => none
  | some (.inr j) => some j

/-- The checkpoint remover `clear_progress` (`app.py` lines 62-64). -/
def clear_progress (_ : ProgressFile) : ProgressFile := none

/-! ConversionOrchestrator: the processing block of `show_converter_page`
(`app.py` lines 342-595).  The UI is abstracted away; the external
collaborators appear as follows:

* the per-page processor is an injected function `Nat → String × Bool`
  (the `(text, success)` pair returned by `process_page_with_gemini`),
  one function for the forward pass and one for the retry sweep;
* rasterization (`convert_from_bytes`) yields a page count, or `none`
  when it raises (a run-fatal exception);
* `create_job` results are an injected sequence indexed by the number of
  create calls made so far (`none` models a ledger failure);
* the cancel flag is modelled by the poll index from which it reads true
  (`none` = never set); every read of `st.session_state.cancel_requested`
  is a poll and increments the poll counter, so the flag is sticky;
* ledger calls and checkpoint writes are recorded as trace events. -/

/-- Observable actions of the orchestrator: ledger calls
(`models.py`), checkpoint-file writes and removals (`app.py` lines 49-64)
and page-processing calls (the `retry` flag tells the forward pass from
the retry sweep). -/
inductive Event
  | createJob (filename : String) (total : Nat) (result : Option Nat)
  | saveProgress (cp : Checkpoint)
  | clearProgress
  | updateProgress (id completed failedCount : Nat)
  | completeJob (id : Nat) (failedCount : Nat)
  | cancelJob (id : Nat) (completedPages : Nat)
  | failJob (id : Nat)
  | processPage (fileIdx pageIdx : Nat) (retry : Bool)
deriving DecidableEq, Repr

/-- Value of the cancel flag at the n-th poll: `cancelAt = some t` means
the user pressed Cancel between poll `t - 1` and poll `t`, so every poll
from `t` on reads true; `none` means Cancel is never pressed. -/
def cancelRead (cancelAt : Option Nat) (n : Nat) : Bool :=
  match cancelAt with
  | none => false
  | some t => decide (t ≤ n)

/-- State threaded through one page loop (forward pass): the
`markdown_pages` array, the `failed_pages` list, the poll counter, the
progress-file slot, the events emitted so far, the page index at which a
cancel break happened (if any) and whether an exception was raised. -/
structure LoopSt where
  pages : List String
  failed : List Nat
  polls : Nat
  slot : Option Checkpoint
  trace : List Event
  stopped : Option Nat
  raised : Bool

/-- Body of one forward-pass page iteration after the cancel poll
(`app.py` lines 452-477): process the page, storing the text on success
and queueing the index on failure; when `(page_idx + 1) % 10 == 0`,
overwrite the checkpoint and push a progress update to the ledger. -/
def fwdOne (fwd : Nat → String × Bool) (jid : Option Nat)
    (fi total : Nat) (fname : String) (st : LoopSt) (i : Nat) : LoopSt :=
  let t := (fwd i).1
  let ok := (fwd i).2
  let st2 := { st with trace := st.trace ++ [Event.processPage fi i false] }
  let st3 :=
    if ok then { st2 with pages := st2.pages.set i t }
    else { st2 with failed := st2.failed ++ [i] }
  if (i + 1) % 10 == 0 then
    let cp : Checkpoint := ⟨total, i + 1, st3.pages, st3.failed, fname, jid⟩
    let st5 := { st3 with slot := some cp,
                          trace := st3.trace ++ [Event.saveProgress cp] }
    match jid with
    | some id =>
      { st5 with trace :=
          st5.trace ++ [Event.updateProgress id (i + 1) st3.failed.length] }
    | none => st5
  else st3

/-- The cancel branch of the forward pass (`app.py` lines 431-436): when
the poll reads true, push a `cancelled` ledger update carrying the
current page index (when a job id is tracked) and break out of the page
loop. -/
def cancelBreak (jid : Option Nat) (i : Nat) (S : LoopSt) : LoopSt :=
  let evs := match jid with
    | some id => [Event.cancelJob id i]
    | none => []
  { S with polls := S.polls + 1, trace := S.trace ++ evs, stopped := some i }

/-- Forward pass over the list of page indices (`app.py` lines 430-483):
poll the cancel flag before each page — on cancel, push a `cancelled`
ledger update carrying the current page index and break — then run the
page body `fwdOne`.  Accessing `images[page_idx]` raises when the index
is out of range of the rasterized pages. -/
def fwdStep (fwd : Nat → String × Bool) (cancelAt : Option Nat)
    (jid : Option Nat) (fi total imgCount : Nat) (fname : String)
    (st : LoopSt) : List Nat → LoopSt
  | [] => st
  | i :: rest =>
    if st.stopped.isSome || st.raised then st
    else
      let c := cancelRead cancelAt st.polls
      let st1 := { st with polls := st.polls + 1 }
      if c then cancelBreak jid i st
      else if i < imgCount then
        fwdStep fwd cancelAt jid fi total imgCount fname
          (fwdOne fwd jid fi total fname st1 i) rest
      else { st1 with raised := true }

/-- State threaded through the retry sweep (`app.py` lines 489-504). -/
structure SweepSt where
  pages : List String
  retryFailed : List Nat
  polls : Nat
  trace : List Event
  raised : Bool
  brokeOut : Bool

/-- Body of one retry-sweep iteration after the cancel poll (`app.py`
lines 494-502): reprocess the page, writing a success into
`markdown_pages` and keeping a failure in `retry_failed`. -/
def retryOne (rtry : Nat → String × Bool) (fi : Nat) (st : SweepSt)
    (i : Nat) : SweepSt :=
  let t := (rtry i).1
  let ok := (rtry i).2
  let st2 := { st with trace := st.trace ++ [Event.processPage fi i true] }
  if ok then { st2 with pages := st2.pages.set i t }
  else { st2 with retryFailed := st2.retryFailed ++ [i] }

/-- Retry sweep over the failed-page list (`app.py` lines 489-504): poll
the cancel flag before each entry — on cancel, just break — then run the
entry body `retryOne`. -/
def retryStep (rtry : Nat → String × Bool) (cancelAt : Option Nat)
    (fi imgCount : Nat) (st : SweepSt) : List Nat → SweepSt
  | [] => st
  | i :: rest =>
    if st.raised || st.brokeOut then st
    else
      let c := cancelRead cancelAt st.polls
      let st1 := { st with polls := st.polls + 1 }
      if c then { st1 with brokeOut := true }
      else if i < imgCount then
        retryStep rtry cancelAt fi imgCount (retryOne rtry fi st1 i) rest
      else { st1 with raised := true }

/-- Orchestrator state across files: poll counter, number of `create_job`
calls made, the current `job_id` variable, the progress-file slot, the
event trace, and the final `(markdown_pages, failed_pages)` of each file
whose per-file pipeline ran to its end (cancelled or not). -/
structure Sys where
  polls : Nat
  creates : Nat
  job_id : Option Nat
  slot : Option Checkpoint
  trace : List Event
  results : List (List String × List Nat)

/-- The environment of one run: uploaded file names, rasterization
outcome per file, `create_job` outcome per create call, the injected
per-page processors (per file and page) for the forward pass and the
retry sweep, the cancel point, and the resume checkpoint when the Resume
button started the run. -/
structure Env where
  nfiles : Nat
  fname : Nat → String
  rasterize : Nat → Option Nat
  createRes : Nat → Option Nat
  fwd : Nat → Nat → String × Bool
  rtry : Nat → Nat → String × Bool
  cancelAt : Option Nat
  resume : Option Checkpoint

/-- Output stage of the per-file pipeline (`app.py` lines 512-577): if
the cancel flag is still clear, render the requested outputs, push the
`completed` ledger update and delete the checkpoint; in every case record
the file's final page array and failed list. -/
def finishFile (env : Env) (s : Sys) (pages : List String)
    (failed : List Nat) : Sys × Bool :=
  let c := cancelRead env.cancelAt s.polls
  let s1 := { s with polls := s.polls + 1 }
  let s2 :=
    if !c then
      let evs :=
        (match s1.job_id with
         | some id => [Event.completeJob id failed.length]
         | none => []) ++ [Event.clearProgress]
      { s1 with slot := none, trace := s1.trace ++ evs }
    else s1
  ({ s2 with results := s2.results ++ [(pages, failed)] }, true)

/-- Per-file pipeline after initialisation (`app.py` lines 424-577):
forward pass, then — unless the run was cancelled or raised — the retry
sweep over failed pages, then — unless cancelled — output generation with
the `completed` ledger update and checkpoint removal.  Returns the
updated state and `false` when an exception escaped (handled by the
caller as the top-level handler). -/
def fileBody (env : Env) (fi : Nat) (s : Sys)
    (total imgCount startPage : Nat) (pages : List String)
    (failed : List Nat) : Sys × Bool :=
  let st0 : LoopSt := ⟨pages, failed, s.polls, s.slot, [], none, false⟩
  let st := fwdStep (env.fwd fi) env.cancelAt s.job_id fi total imgCount
    (env.fname fi) st0 (List.range' startPage (total - startPage))
  let s1 := { s with polls := st.polls, slot := st.slot,
                     trace := s.trace ++ st.trace }
  if st.raised then (s1, false)
  else
    let c := cancelRead env.cancelAt s1.polls
    let s2 := { s1 with polls := s1.polls + 1 }
    if !c && !st.failed.isEmpty then
      let rst := retryStep (env.rtry fi) env.cancelAt fi imgCount
        ⟨st.pages, [], s2.polls, [], false, false⟩ st.failed
      let s3 := { s2 with polls := rst.polls, trace := s2.trace ++ rst.trace }
      if rst.raised then (s3, false)
      else finishFile env s3 rst.pages rst.retryFailed
    else finishFile env s2 st.pages st.failed

/-- Per-file initialisation and pipeline (`app.py` lines 363-422): on
resume, take the saved fields (including `job_id`) from the checkpoint;
on a fresh file, rasterize (line 386), create the ledger job — aborting
the run when the ledger returns no id (lines 400-413) — and write the
initial checkpoint (lines 415-422); then rasterize the page images (line
424) and run the pipeline body. -/
def processFile (env : Env) (fi : Nat) (rd : Option Checkpoint)
    (s : Sys) : Sys × Bool :=
  match rd with
  | some cp =>
    let s1 := { s with job_id := cp.job_id }
    match env.rasterize fi with
    | none => (s1, false)
    | some imgCount =>
      fileBody env fi s1 cp.total_pages imgCount cp.completed_pages
        cp.markdown_pages cp.failed_pages
  | none =>
    match env.rasterize fi with
    | none => (s, false)
    | some total =>
      let pages := List.replicate total ""
      let failed : List Nat := []
      let r := env.createRes s.creates
      let s1 := { s with creates := s.creates + 1,
                         trace := s.trace ++ [Event.createJob (env.fname fi) total r],
                         job_id := r }
      match r with
      | none => (s1, false)
      | some _ =>
        let cp0 : Checkpoint := ⟨total, 0, pages, failed, env.fname fi, r⟩
        let s2 := { s1 with slot := some cp0,
                            trace := s1.trace ++ [Event.saveProgress cp0] }
        fileBody env fi s2 total total 0 pages failed

/-- The file loop (`app.py` lines 363-577) with the surrounding
try/except (lines 345-591): poll the cancel flag at the top of each file
iteration; a raised exception ends the batch and, when the `job_id`
variable holds an id, pushes a `failed` ledger update — note that on a
fresh file the variable can still hold the previous file's id at the
raise point. -/
def runFiles (env : Env) : List (Nat × Option Checkpoint) → Sys → Sys
  | [], s => s
  | (fi, rd) :: rest, s =>
    let c := cancelRead env.cancelAt s.polls
    let s1 := { s with polls := s.polls + 1 }
    if c then s1
    else
      let pr := processFile env fi rd s1
      if pr.2 then runFiles env rest pr.1
      else
        match pr.1.job_id with
        | some id => { pr.1 with trace := pr.1.trace ++ [Event.failJob id] }
        | none => pr.1

/-- One full run of the processing block: resuming processes the single
first uploaded file with the saved progress (`app.py` line 353), a fresh
start processes every uploaded file with no resume data (line 359). -/
def run (env : Env) : Sys :=
  let files : List (Nat × Option Checkpoint) :=
    match env.resume with
    | some cp => [(0, some cp)]
    | none => (List.range env.nfiles).map fun i => (i, none)
  runFiles env files ⟨0, 0, none, none, [], []⟩

/-- Effect of a successful-page store sequence: fold the per-page result
over the page array, setting each successfully processed index. -/
def applySucc (proc : Nat → String × Bool) (pages : List String)
    (idxs : List Nat) : List String :=
  idxs.foldl (fun pg i => if (proc i).2 then pg.set i (proc i).1 else pg) pages

/-- Job ids of the status transitions (`completed`, `failed`,
`cancelled`) attempted in a trace, in order. -/
def statusTransOf (tr : List Event) : List Nat :=
  tr.filterMap fun e =>
    match e with
    | .completeJob j _ => some j
    | .failJob j => some j
    | .cancelJob j _ => some j
    | _ => none

/-- Event classifier: status transition attempts (`complete_job`,
`fail_job`, `cancel_job`). -/
def isTransEv : Event → Bool
  | .completeJob _ _ => true
  | .failJob _ => true
  | .cancelJob _ _ => true
  | _ => false

/-- Event classifier: `cancel_job` calls. -/
def isCancelEv : Event → Bool
  | .cancelJob _ _ => true
  | _ => false

/-- Event classifier: `create_job` calls. -/
def isCreateEv : Event → Bool
  | .createJob _ _ _ => true
  | _ => false

/-- Event classifier: checkpoint writes. -/
def isSaveEv : Event → Bool
  | .saveProgress _ => true
  | _ => false

/-- Event classifier: page-processing calls. -/
def isPageEv : Event → Bool
  | .processPage _ _ _ => true
  | _ => false

/-- Environment of a fresh single-file run: one uploaded file, a
rasterization yielding `P` pages, a ledger that assigns job id `id`, the
given per-page processors and cancel point, no resume data. -/
def freshEnv (name : String) (P id : Nat) (fwd rtry : Nat → String × Bool)
    (cancelAt : Option Nat) : Env :=
  { nfiles := 1, fname := fun _ => name, rasterize := fun _ => some P,
    createRes := fun _ => some id, fwd := fun _ => fwd, rtry := fun _ => rtry,
    cancelAt := cancelAt, resume := none }

/-- Check that a `cancel_job` call, when present, is the very last event
of the trace: nothing at all — in particular no checkpoint write — is
performed after the cancellation update. -/
def noneAfterCancelJob : List Event → Bool
  | [] => true
  | .cancelJob _ _ :: rest => rest.isEmpty
  | _ :: rest => noneAfterCancelJob rest

/-- A two-file batch in which the first file completes normally and the
second raises while rasterizing, before its `create_job` call: the
`job_id` variable still holds the first file's id at the raise point. -/
def staleEnv : Env :=
  { nfiles := 2, fname := fun _ => "a",
    rasterize := fun i => if i == 0 then some 1 else none,
    createRes := fun _ => some 1,
    fwd := fun _ _ => ("t", true), rtry := fun _ _ => ("t", true),
    cancelAt := none, resume := none }

/-- A fresh single-file run whose `create_job` call returns no id: the
ledger is unavailable. -/
def ledgerDownEnv : Env :=
  { nfiles := 1, fname := fun _ => "a", rasterize := fun _ => some 2,
    createRes := fun _ => none, fwd := fun _ _ => ("t", true),
    rtry := fun _ _ => ("t", true), cancelAt := none, resume := none }

/-- A run started from the Resume button with a saved checkpoint that
carries a recorded job id. -/
def resumeEnv : Env :=
  { nfiles := 1, fname := fun _ => "a", rasterize := fun _ => some 2,
    createRes := fun _ => some 7, fwd := fun _ _ => ("t", true),
    rtry := fun _ _ => ("t", true), cancelAt := none,
    resume := some ⟨2, 1, ["x", ""], [], "a", some 3⟩ }

/-! Lemmas about the orchestrator model. -/

/-- The cancel flag is sticky: once a poll reads true, every later poll
reads true. -/
theorem cancelRead_mono (a : Option Nat) (n m : Nat) (h : cancelRead a n = true)
    (hnm : n ≤ m) : cancelRead a m = true := by
  cases a with
  | none => simp [cancelRead] at h
  | some t =>
    simp [cancelRead] at h ⊢
    omega

/-- The forward pass is inert once stopped or raised. -/
theorem fwdStep_guard (fwd : Nat → String × Bool) (cancelAt : Option Nat)
    (jid : Option Nat) (fi total imgCount : Nat) (fname : String)
    (st : LoopSt) (l : List Nat) (h : (st.stopped.isSome || st.raised) = true) :
    fwdStep fwd cancelAt jid fi total imgCount fname st l = st := by
  cases l with
  | nil => rfl
  | cons i rest => simp [fwdStep, h]

/-- Forward-pass steps compose over list append. -/
theorem fwdStep_append (fwd : Nat → String × Bool) (cancelAt : Option Nat)
    (jid : Option Nat) (fi total imgCount : Nat) (fname : String)
    (st : LoopSt) (l₁ l₂ : List Nat) :
    fwdStep fwd cancelAt jid fi total imgCount fname st (l₁ ++ l₂) =
      fwdStep fwd cancelAt jid fi total imgCount fname
        (fwdStep fwd cancelAt jid fi total imgCount fname st l₁) l₂ := by
  induction l₁ generalizing st with
  | nil => rfl
  | cons i rest ih =>
    by_cases hg : (st.stopped.isSome || st.raised) = true
    · rw [List.cons_append, fwdStep_guard _ _ _ _ _ _ _ _ _ hg,
        fwdStep_guard _ _ _ _ _ _ _ _ (i :: rest) hg,
        fwdStep_guard _ _ _ _ _ _ _ _ l₂ hg]
    · rw [Bool.not_eq_true] at hg
      by_cases hc : cancelRead cancelAt st.polls = true
      · have hmid :
            (fwdStep fwd cancelAt jid fi total imgCount fname st (i :: rest)).stopped
              = some i := by
          simp [fwdStep, hg, hc, cancelBreak]
        have hLHS :
            fwdStep fwd cancelAt jid fi total imgCount fname st (i :: rest ++ l₂) =
              fwdStep fwd cancelAt jid fi total imgCount fname st (i :: rest) := by
          simp [fwdStep, hg, hc]
        rw [hLHS]
        exact (fwdStep_guard _ _ _ _ _ _ _ _ l₂ (by simp [hmid])).symm
      · rw [Bool.not_eq_true] at hc
        by_cases hi : i < imgCount
        · rw [List.cons_append]
          simp only [fwdStep, hg, hc, hi, Bool.false_eq_true, if_false, if_true,
            Option.isSome_none, Bool.or_self, if_pos]
          exact ih _
        · have hmid :
              (fwdStep fwd cancelAt jid fi total imgCount fname st (i :: rest)).raised
                = true := by
            simp [fwdStep, hg, hc, hi]
          have hLHS :
              fwdStep fwd cancelAt jid fi total imgCount fname st (i :: rest ++ l₂) =
                fwdStep fwd cancelAt jid fi total imgCount fname st (i :: rest) := by
            simp [fwdStep, hg, hc, hi]
          rw [hLHS]
          exact (fwdStep_guard _ _ _ _ _ _ _ _ l₂ (by simp [hmid])).symm

/-- Components of one forward-pass page body: how `markdown_pages`,
`failed_pages`, the poll counter and the control flags evolve. -/
theorem fwdOne_char (fwd : Nat → String × Bool) (jid : Option Nat)
    (fi total : Nat) (fname : String) (st : LoopSt) (i : Nat) :
    (fwdOne fwd jid fi total fname st i).pages =
      (if (fwd i).2 then st.pages.set i (fwd i).1 else st.pages) ∧
    (fwdOne fwd jid fi total fname st i).failed =
      st.failed ++ (if (fwd i).2 then [] else [i]) ∧
    (fwdOne fwd jid fi total fname st i).polls = st.polls ∧
    (fwdOne fwd jid fi total fname st i).stopped = st.stopped ∧
    (fwdOne fwd jid fi total fname st i).raised = st.raised := by
  by_cases hok : (fwd i).2 = true <;>
    by_cases hten : ((i + 1) % 10 == 0) = true <;>
    cases jid <;>
    simp [fwdOne, hok, hten]

/-- The slot after one forward-pass page body: overwritten with the
boundary checkpoint every tenth page, untouched otherwise. -/
theorem fwdOne_slot (fwd : Nat → String × Bool) (jid : Option Nat)
    (fi total : Nat) (fname : String) (st : LoopSt) (i : Nat) :
    (fwdOne fwd jid fi total fname st i).slot =
      (if (i + 1) % 10 == 0 then
        some ⟨total, i + 1,
          (if (fwd i).2 then st.pages.set i (fwd i).1 else st.pages),
          st.failed ++ (if (fwd i).2 then [] else [i]), fname, jid⟩
      else st.slot) := by
  by_cases hok : (fwd i).2 = true <;>
    by_cases hten : ((i + 1) % 10 == 0) = true <;>
    cases jid <;>
    simp [fwdOne, hok, hten]

/-- The events emitted by one forward-pass page body are appended to the
trace and are never status transitions or `create_job` calls. -/
theorem fwdOne_trace (fwd : Nat → String × Bool) (jid : Option Nat)
    (fi total : Nat) (fname : String) (st : LoopSt) (i : Nat) :
    ∃ add, (fwdOne fwd jid fi total fname st i).trace = st.trace ++ add ∧
      ∀ e ∈ add, (isTransEv e || isCreateEv e) = false := by
  by_cases hok : (fwd i).2 = true <;>
    by_cases hten : ((i + 1) % 10 == 0) = true <;>
    cases jid <;>
    simp [fwdOne, hok, hten, isTransEv, isCreateEv]

/-- Every tenth page, the forward-pass page body emits a checkpoint write
whose `completed_pages` field is the page count reached. -/
theorem fwdOne_save (fwd : Nat → String × Bool) (jid : Option Nat)
    (fi total : Nat) (fname : String) (st : LoopSt) (i : Nat)
    (hten : ((i + 1) % 10 == 0) = true) :
    ∃ cp, Event.saveProgress cp ∈ (fwdOne fwd jid fi total fname st i).trace ∧
      cp.completed_pages = i + 1 := by
  by_cases hok : (fwd i).2 = true <;>
    cases jid <;>
    simp [fwdOne, hok, hten] <;>
    exact ⟨_, Or.inr rfl, rfl⟩

/-- Folding an empty index list leaves the page array unchanged. -/
theorem applySucc_nil (proc : Nat → String × Bool) (pages : List String) :
    applySucc proc pages [] = pages := rfl

/-- One folding step of the success store. -/
theorem applySucc_cons (proc : Nat → String × Bool) (pages : List String)
    (i : Nat) (l : List Nat) :
    applySucc proc pages (i :: l) =
      applySucc proc (if (proc i).2 then pages.set i (proc i).1 else pages) l := rfl

/-- The success store composes over list append. -/
theorem applySucc_append (proc : Nat → String × Bool) (pages : List String)
    (l₁ l₂ : List Nat) :
    applySucc proc pages (l₁ ++ l₂) =
      applySucc proc (applySucc proc pages l₁) l₂ :=
  List.foldl_append ..

/-- The success store preserves the length of the page array. -/
theorem applySucc_length (proc : Nat → String × Bool) (pages : List String)
    (l : List Nat) : (applySucc proc pages l).length = pages.length := by
  induction l generalizing pages with
  | nil => rfl
  | cons i t ih =>
    rw [applySucc_cons, ih]
    split <;> simp

/-- A page index at which the processor never succeeds is left untouched
by the success store. -/
theorem applySucc_get_untouched (proc : Nat → String × Bool)
    (pages : List String) (l : List Nat) (i : Nat)
    (h : ∀ j ∈ l, j = i → (proc j).2 = false) :
    (applySucc proc pages l)[i]? = pages[i]? := by
  induction l generalizing pages with
  | nil => rfl
  | cons j t ih =>
    rw [applySucc_cons]
    have ht : ∀ x ∈ t, x = i → (proc x).2 = false := fun x hx =>
      h x (List.mem_cons_of_mem j hx)
    rw [ih _ ht]
    by_cases hj : (proc j).2 = true
    · have hne : j ≠ i := by
        intro he
        rw [h j (List.mem_cons_self j t) he] at hj
        exact Bool.false_ne_true hj
      simp [hj, List.getElem?_set_ne hne]
    · rw [Bool.not_eq_true] at hj
      simp [hj]

/-- Characterisation of a forward pass during which the cancel flag is
never set: every page in range is processed, successes are stored,
failures are queued in order, one poll per page is made, and the pass
neither breaks nor raises. -/
theorem fwdStep_none_char (fwd : Nat → String × Bool) (jid : Option Nat)
    (fi total imgCount : Nat) (fname : String) (idxs : List Nat) :
    ∀ st : LoopSt, st.stopped = none → st.raised = false →
      (∀ i ∈ idxs, i < imgCount) →
      (fwdStep fwd none jid fi total imgCount fname st idxs).pages =
          applySucc fwd st.pages idxs ∧
        (fwdStep fwd none jid fi total imgCount fname st idxs).failed =
          st.failed ++ idxs.filter (fun i => !(fwd i).2) ∧
        (fwdStep fwd none jid fi total imgCount fname st idxs).polls =
          st.polls + idxs.length ∧
        (fwdStep fwd none jid fi total imgCount fname st idxs).stopped = none ∧
        (fwdStep fwd none jid fi total imgCount fname st idxs).raised = false := by
  induction idxs with
  | nil =>
    intro st h0 h1 _
    simp [fwdStep, applySucc, h0, h1]
  | cons i rest ih =>
    intro st h0 h1 hb
    have hi : i < imgCount := hb i (List.mem_cons_self i rest)
    have hbr : ∀ x ∈ rest, x < imgCount := fun x hx =>
      hb x (List.mem_cons_of_mem i hx)
    have hguard : (st.stopped.isSome || st.raised) = false := by simp [h0, h1]
    have hstep : fwdStep fwd none jid fi total imgCount fname st (i :: rest) =
        fwdStep fwd none jid fi total imgCount fname
          (fwdOne fwd jid fi total fname { st with polls := st.polls + 1 } i)
          rest := by
      simp [fwdStep, hguard, cancelRead, hi]
    obtain ⟨hp, hf, hpl, hs, hr⟩ :=
      fwdOne_char fwd jid fi total fname { st with polls := st.polls + 1 } i
    obtain ⟨ih1, ih2, ih3, ih4, ih5⟩ :=
      ih (fwdOne fwd jid fi total fname { st with polls := st.polls + 1 } i)
        (by rw [hs]; exact h0) (by rw [hr]; exact h1) hbr
    refine ⟨?_, ?_, ?_, ?_, ?_⟩
    · rw [hstep, ih1, hp, applySucc_cons]
    · rw [hstep, ih2, hf]
      by_cases hok : (fwd i).2 = true <;>
        simp [List.filter_cons, hok, List.append_assoc]
    · rw [hstep, ih3, hpl]
      simp
      omega
    · rw [hstep]
      exact ih4
    · rw [hstep]
      exact ih5

/-- Components of one retry-sweep entry body. -/
theorem retryOne_char (rtry : Nat → String × Bool) (fi : Nat) (st : SweepSt)
    (i : Nat) :
    (retryOne rtry fi st i).pages =
      (if (rtry i).2 then st.pages.set i (rtry i).1 else st.pages) ∧
    (retryOne rtry fi st i).retryFailed =
      st.retryFailed ++ (if (rtry i).2 then [] else [i]) ∧
    (retryOne rtry fi st i).polls = st.polls ∧
    (retryOne rtry fi st i).raised = st.raised ∧
    (retryOne rtry fi st i).brokeOut = st.brokeOut ∧
    (retryOne rtry fi st i).trace = st.trace ++ [Event.processPage fi i true] := by
  by_cases hok : (rtry i).2 = true <;> simp [retryOne, hok]

/-- Characterisation of a retry sweep during which the cancel flag is
never set: every entry in range is reprocessed, successes are written
into the page array, failures accumulate in order, one poll per entry is
made, and the sweep neither breaks nor raises. -/
theorem retryStep_none_char (rtry : Nat → String × Bool) (fi imgCount : Nat)
    (idxs : List Nat) :
    ∀ st : SweepSt, st.raised = false → st.brokeOut = false →
      (∀ i ∈ idxs, i < imgCount) →
      (retryStep rtry none fi imgCount st idxs).pages =
          applySucc rtry st.pages idxs ∧
        (retryStep rtry none fi imgCount st idxs).retryFailed =
          st.retryFailed ++ idxs.filter (fun i => !(rtry i).2) ∧
        (retryStep rtry none fi imgCount st idxs).polls =
          st.polls + idxs.length ∧
        (retryStep rtry none fi imgCount st idxs).raised = false ∧
        (retryStep rtry none fi imgCount st idxs).brokeOut = false := by
  induction idxs with
  | nil =>
    intro st h0 h1 _
    simp [retryStep, applySucc, h0, h1]
  | cons i rest ih =>
    intro st h0 h1 hb
    have hi : i < imgCount := hb i (List.mem_cons_self i rest)
    have hbr : ∀ x ∈ rest, x < imgCount := fun x hx =>
      hb x (List.mem_cons_of_mem i hx)
    have hguard : (st.raised || st.brokeOut) = false := by simp [h0, h1]
    have hstep : retryStep rtry none fi imgCount st (i :: rest) =
        retryStep rtry none fi imgCount
          (retryOne rtry fi { st with polls := st.polls + 1 } i) rest := by
      simp [retryStep, hguard, cancelRead, hi]
    obtain ⟨hp, hf, hpl, hr, hbk, _⟩ :=
      retryOne_char rtry fi { st with polls := st.polls + 1 } i
    obtain ⟨ih1, ih2, ih3, ih4, ih5⟩ :=
      ih (retryOne rtry fi { st with polls := st.polls + 1 } i)
        (by rw [hr]; exact h0) (by rw [hbk]; exact h1) hbr
    refine ⟨?_, ?_, ?_, ?_, ?_⟩
    · rw [hstep, ih1, hp, applySucc_cons]
    · rw [hstep, ih2, hf]
      by_cases hok : (rtry i).2 = true <;>
        simp [List.filter_cons, hok, List.append_assoc]
    · rw [hstep, ih3, hpl]
      simp
      omega
    · rw [hstep]
      exact ih4
    · rw [hstep]
      exact ih5

/-- A forward pass during whose polls the cancel flag never reads true
behaves exactly like a pass with the flag never set. -/
theorem fwdStep_nofire (fwd : Nat → String × Bool) (cancelAt : Option Nat)
    (jid : Option Nat) (fi total imgCount : Nat) (fname : String)
    (idxs : List Nat) :
    ∀ st : LoopSt, st.stopped = none →
      (∀ j, j < idxs.length → cancelRead cancelAt (st.polls + j) = false) →
      fwdStep fwd cancelAt jid fi total imgCount fname st idxs =
        fwdStep fwd none jid fi total imgCount fname st idxs := by
  induction idxs with
  | nil => intro st _ _; rfl
  | cons i rest ih =>
    intro st h0 hnf
    by_cases hg : (st.stopped.isSome || st.raised) = true
    · rw [fwdStep_guard _ _ _ _ _ _ _ _ _ hg, fwdStep_guard _ _ _ _ _ _ _ _ _ hg]
    · rw [Bool.not_eq_true] at hg
      have hc : cancelRead cancelAt st.polls = false := by
        have := hnf 0 (by simp)
        simpa using this
      by_cases hi : i < imgCount
      · have hl : fwdStep fwd cancelAt jid fi total imgCount fname st (i :: rest) =
            fwdStep fwd cancelAt jid fi total imgCount fname
              (fwdOne fwd jid fi total fname { st with polls := st.polls + 1 } i)
              rest := by
          simp [fwdStep, hg, hc, hi]
        have hr : fwdStep fwd none jid fi total imgCount fname st (i :: rest) =
            fwdStep fwd none jid fi total imgCount fname
              (fwdOne fwd jid fi total fname { st with polls := st.polls + 1 } i)
              rest := by
          simp [fwdStep, hg, cancelRead, hi]
        obtain ⟨_, _, hpl, hs, _⟩ :=
          fwdOne_char fwd jid fi total fname { st with polls := st.polls + 1 } i
        rw [hl, hr]
        refine ih _ (by rw [hs]; exact h0) ?_
        intro j hj
        rw [hpl]
        have := hnf (j + 1) (by simpa using Nat.succ_lt_succ hj)
        show cancelRead cancelAt (st.polls + 1 + j) = false
        rw [Nat.add_assoc, Nat.add_comm 1 j, ← Nat.add_assoc]
        exact this
      · have hcn : cancelRead (none : Option Nat) st.polls = false := rfl
        simp [fwdStep, hg, hc, hi, hcn]

/-- A forward pass over `l₁ ++ i :: l₂` during which the flag first
reads true at the poll made before page `i` processes `l₁` uncancelled
and then breaks at `i`, pushing the `cancelled` update. -/
theorem fwdStep_fire_split (fwd : Nat → String × Bool) (cancelAt : Option Nat)
    (jid : Option Nat) (fi total imgCount : Nat) (fname : String)
    (l₁ : List Nat) (i : Nat) (l₂ : List Nat) :
    ∀ st : LoopSt, st.stopped = none → st.raised = false →
      (∀ x ∈ l₁, x < imgCount) →
      (∀ j, j < l₁.length → cancelRead cancelAt (st.polls + j) = false) →
      cancelRead cancelAt (st.polls + l₁.length) = true →
      fwdStep fwd cancelAt jid fi total imgCount fname st (l₁ ++ i :: l₂) =
        cancelBreak jid i (fwdStep fwd none jid fi total imgCount fname st l₁) := by
  induction l₁ with
  | nil =>
    intro st h0 h1 _ _ hfire
    have hg : (st.stopped.isSome || st.raised) = false := by simp [h0, h1]
    have hc : cancelRead cancelAt st.polls = true := by simpa using hfire
    simp [fwdStep, hg, hc]
  | cons x rest ih =>
    intro st h0 h1 hb hnf hfire
    have hg : (st.stopped.isSome || st.raised) = false := by simp [h0, h1]
    have hx : x < imgCount := hb x (List.mem_cons_self x rest)
    have hbr : ∀ y ∈ rest, y < imgCount := fun y hy =>
      hb y (List.mem_cons_of_mem x hy)
    have hc : cancelRead cancelAt st.polls = false := by
      have := hnf 0 (by simp)
      simpa using this
    have hl : fwdStep fwd cancelAt jid fi total imgCount fname st
        ((x :: rest) ++ i :: l₂) =
        fwdStep fwd cancelAt jid fi total imgCount fname
          (fwdOne fwd jid fi total fname { st with polls := st.polls + 1 } x)
          (rest ++ i :: l₂) := by
      simp [fwdStep, hg, hc, hx]
    have hr : fwdStep fwd none jid fi total imgCount fname st (x :: rest) =
        fwdStep fwd none jid fi total imgCount fname
          (fwdOne fwd jid fi total fname { st with polls := st.polls + 1 } x)
          rest := by
      simp [fwdStep, hg, cancelRead, hx]
    obtain ⟨_, _, hpl, hs, hraised⟩ :=
      fwdOne_char fwd jid fi total fname { st with polls := st.polls + 1 } x
    rw [hl, hr]
    refine ih _ (by rw [hs]; exact h0) (by rw [hraised]; exact h1) hbr ?_ ?_
    · intro j hj
      rw [hpl]
      have := hnf (j + 1) (by simpa using Nat.succ_lt_succ hj)
      show cancelRead cancelAt (st.polls + 1 + j) = false
      rw [Nat.add_assoc, Nat.add_comm 1 j, ← Nat.add_assoc]
      exact this
    · rw [hpl]
      have := hfire
      show cancelRead cancelAt (st.polls + 1 + rest.length) = true
      rw [Nat.add_assoc, Nat.add_comm 1 rest.length, ← Nat.add_assoc]
      simpa using this

/-- After an uncancelled forward pass over the first `m` pages starting
from a freshly initialised state whose slot holds the initial checkpoint,
the slot holds the checkpoint written at the last 10-page boundary (the
initial checkpoint when fewer than 10 pages were processed). -/
theorem fwdStep_none_slot (fwd : Nat → String × Bool) (jid : Option Nat)
    (fi total imgCount : Nat) (fname : String) (m : Nat) :
    ∀ st : LoopSt, st.stopped = none → st.raised = false →
      (∀ i ∈ List.range m, i < imgCount) →
      st.slot = some ⟨total, 0, st.pages, st.failed, fname, jid⟩ →
      (fwdStep fwd none jid fi total imgCount fname st (List.range m)).slot =
        some ⟨total, 10 * (m / 10),
          applySucc fwd st.pages (List.range (10 * (m / 10))),
          st.failed ++
            (List.range (10 * (m / 10))).filter (fun i => !(fwd i).2),
          fname, jid⟩ := by
  induction m with
  | zero =>
    intro st h0 h1 _ hslot
    simpa [fwdStep, applySucc] using hslot
  | succ m ih =>
    intro st h0 h1 hb hslot
    have hbm : ∀ i ∈ List.range m, i < imgCount := fun i hi =>
      hb i (List.mem_range.mpr (Nat.lt_succ_of_lt (List.mem_range.mp hi)))
    have hm : m < imgCount := hb m (List.mem_range.mpr (Nat.lt_succ_self m))
    obtain ⟨hcp, hcf, hcpl, hcs, hcr⟩ :=
      fwdStep_none_char fwd jid fi total imgCount fname (List.range m) st h0 h1 hbm
    have hsl := ih st h0 h1 hbm hslot
    rw [List.range_succ, fwdStep_append]
    set Sm := fwdStep fwd none jid fi total imgCount fname st (List.range m) with hSm
    have hg : (Sm.stopped.isSome || Sm.raised) = false := by simp [hcs, hcr]
    have hone : fwdStep fwd none jid fi total imgCount fname Sm [m] =
        fwdOne fwd jid fi total fname { Sm with polls := Sm.polls + 1 } m := by
      simp [fwdStep, hg, cancelRead, hm]
    rw [hone, fwdOne_slot]
    by_cases hten : ((m + 1) % 10 == 0) = true
    · have hmod : (m + 1) % 10 = 0 := by simpa using hten
      have h10 : 10 * ((m + 1) / 10) = m + 1 := by omega
      rw [if_pos hten, h10]
      have hpages : (if (fwd m).2 then Sm.pages.set m (fwd m).1 else Sm.pages) =
          applySucc fwd st.pages (List.range (m + 1)) := by
        rw [List.range_succ, applySucc_append, ← hcp]
        rfl
      have hfail : Sm.failed ++ (if (fwd m).2 then [] else [m]) =
          st.failed ++ (List.range (m + 1)).filter (fun i => !(fwd i).2) := by
        rw [List.range_succ, List.filter_append, ← List.append_assoc, ← hcf]
        by_cases hok : (fwd m).2 = true <;> simp [hok]
      rw [show ({ Sm with polls := Sm.polls + 1 } : LoopSt).pages = Sm.pages from rfl,
        show ({ Sm with polls := Sm.polls + 1 } : LoopSt).failed = Sm.failed from rfl,
        hpages, hfail]
    · have hmod : ¬(m + 1) % 10 = 0 := by simpa using hten
      have h10 : 10 * ((m + 1) / 10) = 10 * (m / 10) := by omega
      rw [if_neg hten, h10]
      exact hsl

/-- The forward pass only appends to the trace. -/
theorem fwdStep_trace_mono (fwd : Nat → String × Bool) (cancelAt : Option Nat)
    (jid : Option Nat) (fi total imgCount : Nat) (fname : String)
    (l : List Nat) :
    ∀ st : LoopSt, ∃ add,
      (fwdStep fwd cancelAt jid fi total imgCount fname st l).trace =
        st.trace ++ add := by
  induction l with
  | nil => intro st; exact ⟨[], by simp [fwdStep]⟩
  | cons i rest ih =>
    intro st
    by_cases hg : (st.stopped.isSome || st.raised) = true
    · exact ⟨[], by rw [fwdStep_guard _ _ _ _ _ _ _ _ _ hg]; simp⟩
    · rw [Bool.not_eq_true] at hg
      by_cases hc : cancelRead cancelAt st.polls = true
      · cases jid with
        | none => exact ⟨[], by simp [fwdStep, hg, hc, cancelBreak]⟩
        | some id =>
          exact ⟨[Event.cancelJob id i], by simp [fwdStep, hg, hc, cancelBreak]⟩
      · rw [Bool.not_eq_true] at hc
        by_cases hi : i < imgCount
        · have hstep : fwdStep fwd cancelAt jid fi total imgCount fname st (i :: rest) =
              fwdStep fwd cancelAt jid fi total imgCount fname
                (fwdOne fwd jid fi total fname { st with polls := st.polls + 1 } i)
                rest := by
            simp [fwdStep, hg, hc, hi]
          obtain ⟨add1, h1, _⟩ :=
            fwdOne_trace fwd jid fi total fname { st with polls := st.polls + 1 } i
          obtain ⟨add2, h2⟩ :=
            ih (fwdOne fwd jid fi total fname { st with polls := st.polls + 1 } i)
          refine ⟨add1 ++ add2, ?_⟩
          rw [hstep, h2, h1]
          simp [List.append_assoc]
        · exact ⟨[], by simp [fwdStep, hg, hc, hi]⟩

/-- The forward pass never decreases the poll counter. -/
theorem fwdStep_polls_le (fwd : Nat → String × Bool) (cancelAt : Option Nat)
    (jid : Option Nat) (fi total imgCount : Nat) (fname : String)
    (l : List Nat) :
    ∀ st : LoopSt, st.polls ≤
      (fwdStep fwd cancelAt jid fi total imgCount fname st l).polls := by
  induction l with
  | nil => intro st; simp [fwdStep]
  | cons i rest ih =>
    intro st
    by_cases hg : (st.stopped.isSome || st.raised) = true
    · rw [fwdStep_guard _ _ _ _ _ _ _ _ _ hg]
    · rw [Bool.not_eq_true] at hg
      by_cases hc : cancelRead cancelAt st.polls = true
      · simp [fwdStep, hg, hc, cancelBreak]
      · rw [Bool.not_eq_true] at hc
        by_cases hi : i < imgCount
        · have hstep : fwdStep fwd cancelAt jid fi total imgCount fname st (i :: rest) =
              fwdStep fwd cancelAt jid fi total imgCount fname
                (fwdOne fwd jid fi total fname { st with polls := st.polls + 1 } i)
                rest := by
            simp [fwdStep, hg, hc, hi]
          have := ih (fwdOne fwd jid fi total fname { st with polls := st.polls + 1 } i)
          obtain ⟨_, _, hpl, _, _⟩ :=
            fwdOne_char fwd jid fi total fname { st with polls := st.polls + 1 } i
          rw [hstep]
          rw [hpl] at this
          simp at this
          omega
        · simp [fwdStep, hg, hc, hi]

/-- If the forward pass breaks, the flag read true at some poll strictly
before the final poll count. -/
theorem fwdStep_fire (fwd : Nat → String × Bool) (cancelAt : Option Nat)
    (jid : Option Nat) (fi total imgCount : Nat) (fname : String)
    (l : List Nat) :
    ∀ st : LoopSt, st.stopped = none →
      ((fwdStep fwd cancelAt jid fi total imgCount fname st l).stopped).isSome = true →
      ∃ n, n < (fwdStep fwd cancelAt jid fi total imgCount fname st l).polls ∧
        cancelRead cancelAt n = true := by
  induction l with
  | nil =>
    intro st h0 hs
    rw [show fwdStep fwd cancelAt jid fi total imgCount fname st [] = st from rfl,
      h0] at hs
    simp at hs
  | cons i rest ih =>
    intro st h0 hs
    by_cases hg : (st.stopped.isSome || st.raised) = true
    · rw [fwdStep_guard _ _ _ _ _ _ _ _ _ hg] at hs
      rw [h0] at hs
      simp at hs
    · rw [Bool.not_eq_true] at hg
      by_cases hc : cancelRead cancelAt st.polls = true
      · refine ⟨st.polls, ?_, hc⟩
        simp [fwdStep, hg, hc, cancelBreak]
      · rw [Bool.not_eq_true] at hc
        by_cases hi : i < imgCount
        · have hstep : fwdStep fwd cancelAt jid fi total imgCount fname st (i :: rest) =
              fwdStep fwd cancelAt jid fi total imgCount fname
                (fwdOne fwd jid fi total fname { st with polls := st.polls + 1 } i)
                rest := by
            simp [fwdStep, hg, hc, hi]
          rw [hstep] at hs ⊢
          obtain ⟨_, _, _, hos, _⟩ :=
            fwdOne_char fwd jid fi total fname { st with polls := st.polls + 1 } i
          exact ih _ (by rw [hos]; exact h0) hs
        · rw [show fwdStep fwd cancelAt jid fi total imgCount fname st (i :: rest) =
              { st with polls := st.polls + 1, raised := true } from by
                simp [fwdStep, hg, hc, hi]] at hs
          rw [show ({ st with polls := st.polls + 1, raised := true } : LoopSt).stopped
              = st.stopped from rfl, h0] at hs
          simp at hs

/-- A forward pass that starts clean never both breaks and raises. -/
theorem fwdStep_stop_raise (fwd : Nat → String × Bool) (cancelAt : Option Nat)
    (jid : Option Nat) (fi total imgCount : Nat) (fname : String)
    (l : List Nat) :
    ∀ st : LoopSt, st.stopped = none → st.raised = false →
      ((fwdStep fwd cancelAt jid fi total imgCount fname st l).stopped).isSome = true →
      (fwdStep fwd cancelAt jid fi total imgCount fname st l).raised = false := by
  induction l with
  | nil =>
    intro st h0 _ hs
    rw [show fwdStep fwd cancelAt jid fi total imgCount fname st [] = st from rfl,
      h0] at hs
    simp at hs
  | cons i rest ih =>
    intro st h0 h1 hs
    have hg : (st.stopped.isSome || st.raised) = false := by simp [h0, h1]
    by_cases hc : cancelRead cancelAt st.polls = true
    · simp [fwdStep, hg, hc, cancelBreak, h0, h1]
    · rw [Bool.not_eq_true] at hc
      by_cases hi : i < imgCount
      · have hstep : fwdStep fwd cancelAt jid fi total imgCount fname st (i :: rest) =
            fwdStep fwd cancelAt jid fi total imgCount fname
              (fwdOne fwd jid fi total fname { st with polls := st.polls + 1 } i)
              rest := by
          simp [fwdStep, hg, hc, hi]
        rw [hstep] at hs ⊢
        obtain ⟨_, _, _, hos, hor⟩ :=
          fwdOne_char fwd jid fi total fname { st with polls := st.polls + 1 } i
        exact ih _ (by rw [hos]; exact h0) (by rw [hor]; exact h1) hs
      · rw [show fwdStep fwd cancelAt jid fi total imgCount fname st (i :: rest) =
            { st with polls := st.polls + 1, raised := true } from by
              simp [fwdStep, hg, hc, hi]] at hs
        rw [show ({ st with polls := st.polls + 1, raised := true } : LoopSt).stopped
            = st.stopped from rfl, h0] at hs
        simp at hs

/-- Shape of the events added by the forward pass: never a `create_job`
call; no status transition unless the pass breaks on cancellation, in
which case the only transition is the final `cancelled` update (pushed
only when a job id is tracked). -/
theorem fwdStep_shape (fwd : Nat → String × Bool) (cancelAt : Option Nat)
    (jid : Option Nat) (fi total imgCount : Nat) (fname : String)
    (l : List Nat) :
    ∀ st : LoopSt, st.stopped = none →
      ∃ add, (fwdStep fwd cancelAt jid fi total imgCount fname st l).trace =
          st.trace ++ add ∧
        (∀ e ∈ add, isCreateEv e = false) ∧
        ((fwdStep fwd cancelAt jid fi total imgCount fname st l).stopped = none →
          ∀ e ∈ add, isTransEv e = false) ∧
        (∀ k, (fwdStep fwd cancelAt jid fi total imgCount fname st l).stopped = some k →
          ∃ pre, add = pre ++ (match jid with
              | some id => [Event.cancelJob id k]
              | none => []) ∧
            (∀ e ∈ pre, isTransEv e = false)) := by
  induction l with
  | nil =>
    intro st h0
    refine ⟨[], by simp [fwdStep], by simp, by simp, ?_⟩
    intro k hk
    rw [show fwdStep fwd cancelAt jid fi total imgCount fname st [] = st from rfl,
      h0] at hk
    exact absurd hk (by simp)
  | cons i rest ih =>
    intro st h0
    by_cases hraised : st.raised = true
    · have hg : (st.stopped.isSome || st.raised) = true := by simp [hraised]
      rw [fwdStep_guard _ _ _ _ _ _ _ _ _ hg]
      refine ⟨[], by simp, by simp, by simp, ?_⟩
      intro k hk
      rw [h0] at hk
      exact absurd hk (by simp)
    · rw [Bool.not_eq_true] at hraised
      have hg : (st.stopped.isSome || st.raised) = false := by simp [h0, hraised]
      by_cases hc : cancelRead cancelAt st.polls = true
      · have hres : fwdStep fwd cancelAt jid fi total imgCount fname st (i :: rest) =
            cancelBreak jid i st := by
          simp [fwdStep, hg, hc]
        rw [hres]
        have hstp : (cancelBreak jid i st).stopped = some i := by
          cases jid <;> simp [cancelBreak]
        cases jid with
        | none =>
          refine ⟨[], by simp [cancelBreak], by simp, by simp, ?_⟩
          intro k hk
          rw [hstp] at hk
          have hik : i = k := by injection hk
          subst hik
          exact ⟨[], by simp, by simp⟩
        | some id =>
          refine ⟨[Event.cancelJob id i], by simp [cancelBreak], ?_, ?_, ?_⟩
          · intro e he
            rw [List.mem_singleton.mp he]
            rfl
          · intro hnone
            rw [hstp] at hnone
            exact absurd hnone (by simp)
          · intro k hk
            rw [hstp] at hk
            have hik : i = k := by injection hk
            subst hik
            exact ⟨[], by simp, by simp⟩
      · rw [Bool.not_eq_true] at hc
        by_cases hi : i < imgCount
        · have hstep : fwdStep fwd cancelAt jid fi total imgCount fname st (i :: rest) =
              fwdStep fwd cancelAt jid fi total imgCount fname
                (fwdOne fwd jid fi total fname { st with polls := st.polls + 1 } i)
                rest := by
            simp [fwdStep, hg, hc, hi]
          obtain ⟨_, _, _, hos, _⟩ :=
            fwdOne_char fwd jid fi total fname { st with polls := st.polls + 1 } i
          obtain ⟨add1, h1, hno1⟩ :=
            fwdOne_trace fwd jid fi total fname { st with polls := st.polls + 1 } i
          obtain ⟨add2, h2, hcr2, hnm2, hsm2⟩ :=
            ih (fwdOne fwd jid fi total fname { st with polls := st.polls + 1 } i)
              (by rw [hos]; exact h0)
          have htr : (fwdStep fwd cancelAt jid fi total imgCount fname st (i :: rest)).trace =
              st.trace ++ (add1 ++ add2) := by
            rw [hstep, h2, h1]
            simp [List.append_assoc]
          have hadd1t : ∀ e ∈ add1, isTransEv e = false := by
            intro e he
            have := hno1 e he
            simp at this
            exact this.1
          have hadd1c : ∀ e ∈ add1, isCreateEv e = false := by
            intro e he
            have := hno1 e he
            simp at this
            exact this.2
          refine ⟨add1 ++ add2, htr, ?_, ?_, ?_⟩
          · intro e he
            rcases List.mem_append.mp he with h | h
            · exact hadd1c e h
            · exact hcr2 e h
          · intro hnone e he
            rw [hstep] at hnone
            rcases List.mem_append.mp he with h | h
            · exact hadd1t e h
            · exact hnm2 hnone e h
          · intro k hk
            rw [hstep] at hk
            obtain ⟨pre2, hpre2, hpre2t⟩ := hsm2 k hk
            refine ⟨add1 ++ pre2, ?_, ?_⟩
            · rw [hpre2, List.append_assoc]
            · intro e he
              rcases List.mem_append.mp he with h | h
              · exact hadd1t e h
              · exact hpre2t e h
        · have hres : fwdStep fwd cancelAt jid fi total imgCount fname st (i :: rest) =
              { st with polls := st.polls + 1, raised := true } := by
            simp [fwdStep, hg, hc, hi]
          rw [hres]
          refine ⟨[], by simp, by simp, by simp, ?_⟩
          intro k hk
          rw [show ({ st with polls := st.polls + 1, raised := true } : LoopSt).stopped
              = st.stopped from rfl, h0] at hk
          exact absurd hk (by simp)

/-- The retry sweep only appends page-processing events to the trace: it
emits no ledger call and no checkpoint write — in particular no
`cancelled` update even when it breaks on cancellation. -/
theorem retryStep_shape (rtry : Nat → String × Bool) (cancelAt : Option Nat)
    (fi imgCount : Nat) (l : List Nat) :
    ∀ st : SweepSt, ∃ add,
      (retryStep rtry cancelAt fi imgCount st l).trace = st.trace ++ add ∧
      ∀ e ∈ add, isPageEv e = true := by
  induction l with
  | nil => intro st; exact ⟨[], by simp [retryStep]⟩
  | cons i rest ih =>
    intro st
    by_cases hg : (st.raised || st.brokeOut) = true
    · refine ⟨[], ?_, by simp⟩
      simp [retryStep, hg]
    · rw [Bool.not_eq_true] at hg
      by_cases hc : cancelRead cancelAt st.polls = true
      · refine ⟨[], ?_, by simp⟩
        simp [retryStep, hg, hc]
      · rw [Bool.not_eq_true] at hc
        by_cases hi : i < imgCount
        · have hstep : retryStep rtry cancelAt fi imgCount st (i :: rest) =
              retryStep rtry cancelAt fi imgCount
                (retryOne rtry fi { st with polls := st.polls + 1 } i) rest := by
            simp [retryStep, hg, hc, hi]
          obtain ⟨_, _, _, _, _, htr1⟩ :=
            retryOne_char rtry fi { st with polls := st.polls + 1 } i
          obtain ⟨add2, h2, hp2⟩ :=
            ih (retryOne rtry fi { st with polls := st.polls + 1 } i)
          refine ⟨Event.processPage fi i true :: add2, ?_, ?_⟩
          · rw [hstep, h2, htr1]
            simp
          · intro e he
            rcases List.mem_cons.mp he with h | h
            · rw [h]; rfl
            · exact hp2 e h
        · refine ⟨[], ?_, by simp⟩
          simp [retryStep, hg, hc, hi]

/-- The retry sweep never decreases the poll counter. -/
theorem retryStep_polls_le (rtry : Nat → String × Bool) (cancelAt : Option Nat)
    (fi imgCount : Nat) (l : List Nat) :
    ∀ st : SweepSt, st.polls ≤
      (retryStep rtry cancelAt fi imgCount st l).polls := by
  induction l with
  | nil => intro st; simp [retryStep]
  | cons i rest ih =>
    intro st
    by_cases hg : (st.raised || st.brokeOut) = true
    · simp [retryStep, hg]
    · rw [Bool.not_eq_true] at hg
      by_cases hc : cancelRead cancelAt st.polls = true
      · simp [retryStep, hg, hc]
      · rw [Bool.not_eq_true] at hc
        by_cases hi : i < imgCount
        · have hstep : retryStep rtry cancelAt fi imgCount st (i :: rest) =
              retryStep rtry cancelAt fi imgCount
                (retryOne rtry fi { st with polls := st.polls + 1 } i) rest := by
            simp [retryStep, hg, hc, hi]
          have := ih (retryOne rtry fi { st with polls := st.polls + 1 } i)
          obtain ⟨_, _, hpl, _, _, _⟩ :=
            retryOne_char rtry fi { st with polls := st.polls + 1 } i
          rw [hstep]
          rw [hpl] at this
          simp at this
          omega
        · simp [retryStep, hg, hc, hi]

/-- Characterisation of the per-file pipeline body when the cancel flag
is never set: the body completes without an exception, the file's
recorded result is the forward pass followed by the retry sweep over the
accumulated failed pages, the checkpoint is deleted, and the job and
create counters are untouched. -/
theorem fileBody_none_char (env : Env) (fi : Nat) (s : Sys)
    (total imgCount startPage : Nat) (pages : List String) (failed : List Nat)
    (henv : env.cancelAt = none)
    (hb : ∀ i ∈ List.range' startPage (total - startPage), i < imgCount)
    (hbf : ∀ i ∈ failed, i < imgCount) :
    (fileBody env fi s total imgCount startPage pages failed).2 = true ∧
    (fileBody env fi s total imgCount startPage pages failed).1.results =
      s.results ++
        [(applySucc (env.rtry fi)
            (applySucc (env.fwd fi) pages
              (List.range' startPage (total - startPage)))
            (failed ++ (List.range' startPage (total - startPage)).filter
              (fun i => !((env.fwd fi) i).2)),
          (failed ++ (List.range' startPage (total - startPage)).filter
            (fun i => !((env.fwd fi) i).2)).filter
              (fun i => !((env.rtry fi) i).2))] ∧
    (fileBody env fi s total imgCount startPage pages failed).1.job_id =
      s.job_id ∧
    (fileBody env fi s total imgCount startPage pages failed).1.creates =
      s.creates ∧
    (fileBody env fi s total imgCount startPage pages failed).1.slot = none := by
  have hswb : ∀ i ∈ failed ++ (List.range' startPage (total - startPage)).filter
      (fun i => !((env.fwd fi) i).2), i < imgCount := by
    intro i hi
    rcases List.mem_append.mp hi with h | h
    · exact hbf i h
    · exact hb i (List.mem_of_mem_filter h)
  obtain ⟨hcp, hcf, hcpl, hcs, hcr⟩ :=
    fwdStep_none_char (env.fwd fi) s.job_id fi total imgCount (env.fname fi)
      (List.range' startPage (total - startPage))
      ⟨pages, failed, s.polls, s.slot, [], none, false⟩ rfl rfl hb
  have hcrn : ∀ n, cancelRead none n = false := fun _ => rfl
  by_cases hemp : failed ++ (List.range' startPage (total - startPage)).filter
      (fun i => !((env.fwd fi) i).2) = []
  · simp only [fileBody, finishFile, henv, hcp, hcf, hcpl, hcr, hcrn, hemp,
      List.isEmpty_nil, Bool.not_true, Bool.and_false, Bool.false_eq_true,
      if_false, Bool.not_false, applySucc_nil, List.filter_nil]
    simp [hemp]
  · simp only [fileBody, finishFile, henv, hcp, hcf, hcpl, hcr, hcrn]
    obtain ⟨hrp, hrf, hrpl, hrr, hrb⟩ :=
      retryStep_none_char (env.rtry fi) fi imgCount
        (failed ++ (List.range' startPage (total - startPage)).filter
          (fun i => !((env.fwd fi) i).2))
        ⟨applySucc (env.fwd fi) pages (List.range' startPage (total - startPage)),
          [], s.polls + (List.range' startPage (total - startPage)).length + 1,
          [], false, false⟩ rfl rfl hswb
    simp only [hrp, hrf, hrr]
    simp [hemp]

/-- Result of a fresh, never-cancelled single-file run: forward pass over
all pages from the blank array, then the retry sweep over the failed
pages. -/
theorem run_fresh_none_results (name : String) (P id : Nat)
    (fwd rtry : Nat → String × Bool) :
    (run (freshEnv name P id fwd rtry none)).results =
      [(applySucc rtry (applySucc fwd (List.replicate P "") (List.range P))
          ((List.range P).filter (fun i => !(fwd i).2)),
        ((List.range P).filter (fun i => !(fwd i).2)).filter
          (fun i => !(rtry i).2))] := by
  have hrange : List.range' 0 (P - 0) = List.range P := by
    rw [Nat.sub_zero, List.range_eq_range']
  have hb : ∀ i ∈ List.range' 0 (P - 0), i < P := by
    rw [hrange]
    intro i hi
    exact List.mem_range.mp hi
  have hbf : ∀ i ∈ ([] : List Nat), i < P := by simp
  obtain ⟨hok, hres, _, _, _⟩ :=
    fileBody_none_char (freshEnv name P id fwd rtry none) 0
      { polls := 1, creates := 1, job_id := some id,
        slot := some ⟨P, 0, List.replicate P "", [], name, some id⟩,
        trace := [Event.createJob name P (some id),
          Event.saveProgress ⟨P, 0, List.replicate P "", [], name, some id⟩],
        results := [] }
      P P 0 (List.replicate P "") [] rfl hb hbf
  have hrun : run (freshEnv name P id fwd rtry none) =
      (fileBody (freshEnv name P id fwd rtry none) 0
        { polls := 1, creates := 1, job_id := some id,
          slot := some ⟨P, 0, List.replicate P "", [], name, some id⟩,
          trace := [Event.createJob name P (some id),
            Event.saveProgress ⟨P, 0, List.replicate P "", [], name, some id⟩],
          results := [] }
        P P 0 (List.replicate P "") []).1 := by
    rw [run]
    show runFiles (freshEnv name P id fwd rtry none) [(0, none)]
      ⟨0, 0, none, none, [], []⟩ = _
    rw [runFiles]
    have hpf : processFile (freshEnv name P id fwd rtry none) 0 none
        ⟨0 + 1, 0, none, none, [], []⟩ =
        fileBody (freshEnv name P id fwd rtry none) 0
          { polls := 1, creates := 1, job_id := some id,
            slot := some ⟨P, 0, List.replicate P "", [], name, some id⟩,
            trace := [Event.createJob name P (some id),
              Event.saveProgress ⟨P, 0, List.replicate P "", [], name, some id⟩],
            results := [] }
          P P 0 (List.replicate P "") [] := rfl
    show (if cancelRead (freshEnv name P id fwd rtry none).cancelAt 0 = true
        then ({ polls := 0 + 1, creates := 0, job_id := none, slot := none,
                trace := [], results := [] } : Sys)
        else
          let pr := processFile (freshEnv name P id fwd rtry none) 0 none
            ⟨0 + 1, 0, none, none, [], []⟩
          if pr.2 then runFiles (freshEnv name P id fwd rtry none) [] pr.1
          else
            match pr.1.job_id with
            | some jd => { pr.1 with trace := pr.1.trace ++ [Event.failJob jd] }
            | none => pr.1) = _
    rw [if_neg (by simp [freshEnv, cancelRead])]
    simp only [hpf, hok, if_true]
    rfl
  rw [hrun, hres]
  rw [hrange]
  simp [freshEnv]

/-- Result of a never-cancelled resumed run: forward pass from the
checkpoint's `completed_pages` over the saved page array, then the retry
sweep over the saved failed pages followed by the new ones. -/
theorem run_resume_none_results (env : Env) (cp : Checkpoint) (P : Nat)
    (henv : env.cancelAt = none) (hres : env.resume = some cp)
    (hrast : env.rasterize 0 = some P)
    (htot : cp.total_pages = P) (hcompl : cp.completed_pages ≤ P)
    (hfb : ∀ i ∈ cp.failed_pages, i < P) :
    (run env).results =
      [(applySucc (env.rtry 0)
          (applySucc (env.fwd 0) cp.markdown_pages
            (List.range' cp.completed_pages (P - cp.completed_pages)))
          (cp.failed_pages ++
            (List.range' cp.completed_pages (P - cp.completed_pages)).filter
              (fun i => !((env.fwd 0) i).2)),
        (cp.failed_pages ++
          (List.range' cp.completed_pages (P - cp.completed_pages)).filter
            (fun i => !((env.fwd 0) i).2)).filter
          (fun i => !((env.rtry 0) i).2))] := by
  have hb : ∀ i ∈ List.range' cp.completed_pages (P - cp.completed_pages),
      i < P := by
    intro i hi
    have := List.mem_range'_1.mp hi
    omega
  obtain ⟨hok, hresl, _, _, _⟩ :=
    fileBody_none_char env 0
      { polls := 1, creates := 0, job_id := cp.job_id, slot := none,
        trace := [], results := [] }
      P P cp.completed_pages cp.markdown_pages cp.failed_pages henv hb hfb
  have hcrd : cancelRead env.cancelAt 0 = false := by rw [henv]; rfl
  have hrun : run env =
      (fileBody env 0
        { polls := 1, creates := 0, job_id := cp.job_id, slot := none,
          trace := [], results := [] }
        P P cp.completed_pages cp.markdown_pages cp.failed_pages).1 := by
    rw [run]
    simp only [hres]
    rw [runFiles]
    show (if cancelRead env.cancelAt 0 = true
        then ({ polls := 0 + 1, creates := 0, job_id := none, slot := none,
                trace := [], results := [] } : Sys)
        else
          let pr := processFile env 0 (some cp) ⟨0 + 1, 0, none, none, [], []⟩
          if pr.2 then runFiles env [] pr.1
          else
            match pr.1.job_id with
            | some jd => { pr.1 with trace := pr.1.trace ++ [Event.failJob jd] }
            | none => pr.1) = _
    rw [if_neg (by rw [hcrd]; simp)]
    have hpf : processFile env 0 (some cp) ⟨0 + 1, 0, none, none, [], []⟩ =
        fileBody env 0
          { polls := 1, creates := 0, job_id := cp.job_id, slot := none,
            trace := [], results := [] }
          cp.total_pages P cp.completed_pages cp.markdown_pages
          cp.failed_pages := by
      show (match env.rasterize 0 with
        | none =>
          (({ polls := 0 + 1, creates := 0, job_id := cp.job_id, slot := none,
              trace := [], results := [] } : Sys), false)
        | some imgCount =>
          fileBody env 0
            { polls := 0 + 1, creates := 0, job_id := cp.job_id, slot := none,
              trace := [], results := [] }
            cp.total_pages imgCount cp.completed_pages cp.markdown_pages
            cp.failed_pages) = _
      rw [hrast]
    rw [hpf, htot]
    simp only [hok, if_true]
    rfl
  rw [hrun, hresl]
  rfl

/-- Characterisation of the per-file pipeline body when the forward pass
breaks on cancellation: the sticky flag makes the retry-sweep gate and
the output gate read true, so the body ends immediately — no exception,
no further events, the slot left exactly as the forward pass left it, and
the file result recorded as the pages and failed list at the break. -/
theorem fileBody_stopped_char (env : Env) (fi : Nat) (s : Sys)
    (total imgCount startPage : Nat) (pages : List String) (failed : List Nat)
    (hstop : ((fwdStep (env.fwd fi) env.cancelAt s.job_id fi total imgCount
      (env.fname fi) ⟨pages, failed, s.polls, s.slot, [], none, false⟩
      (List.range' startPage (total - startPage))).stopped).isSome = true) :
    (fileBody env fi s total imgCount startPage pages failed).2 = true ∧
    (fileBody env fi s total imgCount startPage pages failed).1.slot =
      (fwdStep (env.fwd fi) env.cancelAt s.job_id fi total imgCount
        (env.fname fi) ⟨pages, failed, s.polls, s.slot, [], none, false⟩
        (List.range' startPage (total - startPage))).slot ∧
    (fileBody env fi s total imgCount startPage pages failed).1.results =
      s.results ++
        [((fwdStep (env.fwd fi) env.cancelAt s.job_id fi total imgCount
            (env.fname fi) ⟨pages, failed, s.polls, s.slot, [], none, false⟩
            (List.range' startPage (total - startPage))).pages,
          (fwdStep (env.fwd fi) env.cancelAt s.job_id fi total imgCount
            (env.fname fi) ⟨pages, failed, s.polls, s.slot, [], none, false⟩
            (List.range' startPage (total - startPage))).failed)] ∧
    (fileBody env fi s total imgCount startPage pages failed).1.trace =
      s.trace ++
        (fwdStep (env.fwd fi) env.cancelAt s.job_id fi total imgCount
          (env.fname fi) ⟨pages, failed, s.polls, s.slot, [], none, false⟩
          (List.range' startPage (total - startPage))).trace ∧
    (fileBody env fi s total imgCount startPage pages failed).1.job_id =
      s.job_id ∧
    (fileBody env fi s total imgCount startPage pages failed).1.polls =
      (fwdStep (env.fwd fi) env.cancelAt s.job_id fi total imgCount
        (env.fname fi) ⟨pages, failed, s.polls, s.slot, [], none, false⟩
        (List.range' startPage (total - startPage))).polls + 1 + 1 := by
  set st0 : LoopSt := ⟨pages, failed, s.polls, s.slot, [], none, false⟩ with hst0
  set st := fwdStep (env.fwd fi) env.cancelAt s.job_id fi total imgCount
    (env.fname fi) st0 (List.range' startPage (total - startPage)) with hst
  have hraised : st.raised = false :=
    fwdStep_stop_raise (env.fwd fi) env.cancelAt s.job_id fi total imgCount
      (env.fname fi) _ st0 rfl rfl hstop
  obtain ⟨n, hn, hfire⟩ :=
    fwdStep_fire (env.fwd fi) env.cancelAt s.job_id fi total imgCount
      (env.fname fi) _ st0 rfl hstop
  have hc1 : cancelRead env.cancelAt st.polls = true :=
    cancelRead_mono env.cancelAt n st.polls hfire (Nat.le_of_lt hn)
  have hc2 : cancelRead env.cancelAt (st.polls + 1) = true :=
    cancelRead_mono env.cancelAt n (st.polls + 1) hfire
      (Nat.le_of_lt (Nat.lt_succ_of_lt hn))
  simp only [fileBody, finishFile, ← hst0, ← hst, hraised, hc1, hc2,
    Bool.false_eq_true, if_false, Bool.not_true, Bool.false_and, if_true]
  simp

/-- After a fresh single-file run cancelled at forward-pass page `k`, the
checkpoint slot holds the checkpoint written at the last 10-page boundary
before `k` (the initial checkpoint when `k < 10`): pages and failures up
to `10 * (k / 10)` only. -/
theorem run_cancel_slot (name : String) (P k id : Nat)
    (fwd rtry : Nat → String × Bool) (hk : k < P) :
    (run (freshEnv name P id fwd rtry (some (1 + k)))).slot =
      some ⟨P, 10 * (k / 10),
        applySucc fwd (List.replicate P "") (List.range (10 * (k / 10))),
        (List.range (10 * (k / 10))).filter (fun i => !(fwd i).2),
        name, some id⟩ := by
  have hsplit : List.range' 0 (P - 0) =
      List.range k ++ k :: List.range' (k + 1) (P - k - 1) := by
    rw [Nat.sub_zero, List.range_eq_range']
    have h1 := List.range'_append 0 k (P - k) 1
    rw [show 0 + 1 * k = k from by omega,
      show P - k + k = P from by omega] at h1
    have h2 : List.range' k (P - k) = k :: List.range' (k + 1) (P - k - 1) := by
      rw [show P - k = (P - k - 1) + 1 from by omega]
      simp [List.range'_succ]
    rw [← h1, h2]
  set st0 : LoopSt :=
    ⟨List.replicate P "", [], 1,
      some ⟨P, 0, List.replicate P "", [], name, some id⟩, [], none, false⟩
    with hst0
  have hbk : ∀ x ∈ List.range k, x < P := fun x hx =>
    Nat.lt_trans (List.mem_range.mp hx) hk
  have hnf : ∀ j, j < (List.range k).length →
      cancelRead (some (1 + k)) (st0.polls + j) = false := by
    intro j hj
    rw [List.length_range] at hj
    show cancelRead (some (1 + k)) (1 + j) = false
    simp [cancelRead]
    omega
  have hfire : cancelRead (some (1 + k)) (st0.polls + (List.range k).length) =
      true := by
    rw [List.length_range]
    show cancelRead (some (1 + k)) (1 + k) = true
    simp [cancelRead]
  have hst : fwdStep fwd (some (1 + k)) (some id) 0 P P name st0
      (List.range' 0 (P - 0)) =
      cancelBreak (some id) k
        (fwdStep fwd none (some id) 0 P P name st0 (List.range k)) := by
    rw [hsplit]
    exact fwdStep_fire_split fwd (some (1 + k)) (some id) 0 P P name
      (List.range k) k _ st0 rfl rfl hbk hnf hfire
  have hSslot := fwdStep_none_slot fwd (some id) 0 P P name k st0 rfl rfl hbk rfl
  set env := freshEnv name P id fwd rtry (some (1 + k)) with henv
  set s2 : Sys :=
    { polls := 1, creates := 1, job_id := some id,
      slot := some ⟨P, 0, List.replicate P "", [], name, some id⟩,
      trace := [Event.createJob name P (some id),
        Event.saveProgress ⟨P, 0, List.replicate P "", [], name, some id⟩],
      results := [] } with hs2
  have hstop : ((fwdStep (env.fwd 0) env.cancelAt s2.job_id 0 P P (env.fname 0)
      ⟨List.replicate P "", [], s2.polls, s2.slot, [], none, false⟩
      (List.range' 0 (P - 0))).stopped).isSome = true := by
    show ((fwdStep fwd (some (1 + k)) (some id) 0 P P name st0
      (List.range' 0 (P - 0))).stopped).isSome = true
    rw [hst]
    simp [cancelBreak]
  obtain ⟨hfb2, hfbslot, _, _, _⟩ :=
    fileBody_stopped_char env 0 s2 P P 0 (List.replicate P "") [] hstop
  have hrun : run env = (fileBody env 0 s2 P P 0 (List.replicate P "") []).1 := by
    rw [run]
    show runFiles env [(0, none)] ⟨0, 0, none, none, [], []⟩ = _
    rw [runFiles]
    have hpf : processFile env 0 none ⟨0 + 1, 0, none, none, [], []⟩ =
        fileBody env 0 s2 P P 0 (List.replicate P "") [] := rfl
    show (if cancelRead env.cancelAt 0 = true
        then ({ polls := 0 + 1, creates := 0, job_id := none, slot := none,
                trace := [], results := [] } : Sys)
        else
          let pr := processFile env 0 none ⟨0 + 1, 0, none, none, [], []⟩
          if pr.2 then runFiles env [] pr.1
          else
            match pr.1.job_id with
            | some jd => { pr.1 with trace := pr.1.trace ++ [Event.failJob jd] }
            | none => pr.1) = _
    rw [if_neg (by simp [henv, freshEnv, cancelRead])]
    simp only [hpf, hfb2, if_true]
    rfl
  rw [hrun, hfbslot]
  show (fwdStep fwd (some (1 + k)) (some id) 0 P P name st0
    (List.range' 0 (P - 0))).slot = _
  rw [hst]
  show (fwdStep fwd none (some id) 0 P P name st0 (List.range k)).slot = _
  rw [hSslot]
  simp [hst0]

/-- A `cancel_job` event is a status transition. -/
theorem isCancelEv_false_of_isTransEv (e : Event) (h : isTransEv e = false) :
    isCancelEv e = false := by
  cases e <;> first
    | rfl
    | exact absurd h (by simp [isTransEv])

/-- The transition ids of concatenated traces concatenate. -/
theorem statusTransOf_append (l₁ l₂ : List Event) :
    statusTransOf (l₁ ++ l₂) = statusTransOf l₁ ++ statusTransOf l₂ :=
  List.filterMap_append ..

/-- A trace without transition events has no transition ids. -/
theorem statusTransOf_eq_nil (l : List Event)
    (h : ∀ e ∈ l, isTransEv e = false) : statusTransOf l = [] := by
  induction l with
  | nil => rfl
  | cons e t ih =>
    have he := h e (List.mem_cons_self e t)
    have ht := ih fun x hx => h x (List.mem_cons_of_mem e hx)
    rw [statusTransOf, List.filterMap_cons]
    rw [statusTransOf] at ht
    cases e <;> first
      | exact ht
      | exact absurd he (by simp [isTransEv])

/-- Global shape of one per-file pipeline body: events are appended, the
poll counter grows, the job id is untouched, no `create_job` call is
made, at most one status transition is attempted (none when an exception
escapes), and any `cancelled` update is the last event added — followed
by nothing — and implies that the flag read true at some earlier poll. -/
theorem fileBody_shape (env : Env) (fi : Nat) (s : Sys)
    (total imgCount startPage : Nat) (pages : List String)
    (failed : List Nat) :
    ∃ add,
      (fileBody env fi s total imgCount startPage pages failed).1.trace =
        s.trace ++ add ∧
      s.polls ≤ (fileBody env fi s total imgCount startPage pages failed).1.polls ∧
      (fileBody env fi s total imgCount startPage pages failed).1.job_id =
        s.job_id ∧
      (∀ e ∈ add, isCreateEv e = false) ∧
      (statusTransOf add).length ≤ 1 ∧
      ((fileBody env fi s total imgCount startPage pages failed).2 = false →
        statusTransOf add = []) ∧
      ((∀ e ∈ add, isCancelEv e = false) ∨
        (∃ pre id k, add = pre ++ [Event.cancelJob id k] ∧
          (∀ e ∈ pre, isCancelEv e = false) ∧
          (∃ n, n <
            (fileBody env fi s total imgCount startPage pages failed).1.polls ∧
            cancelRead env.cancelAt n = true) ∧
          ((fwdStep (env.fwd fi) env.cancelAt s.job_id fi total imgCount
            (env.fname fi) ⟨pages, failed, s.polls, s.slot, [], none, false⟩
            (List.range' startPage (total - startPage))).stopped).isSome =
            true)) := by
  set st0 : LoopSt := ⟨pages, failed, s.polls, s.slot, [], none, false⟩ with hst0
  set st := fwdStep (env.fwd fi) env.cancelAt s.job_id fi total imgCount
    (env.fname fi) st0 (List.range' startPage (total - startPage)) with hst
  obtain ⟨addF, htrF, hcrF, hnmF, hsmF⟩ :=
    fwdStep_shape (env.fwd fi) env.cancelAt s.job_id fi total imgCount
      (env.fname fi) (List.range' startPage (total - startPage)) st0 rfl
  rw [← hst] at htrF hnmF hsmF
  have htrF2 : st.trace = addF := by
    rw [htrF]
    simp [hst0]
  have hpolls0 : s.polls ≤ st.polls := by
    have h2 := fwdStep_polls_le (env.fwd fi) env.cancelAt s.job_id fi total
      imgCount (env.fname fi) (List.range' startPage (total - startPage)) st0
    rw [← hst] at h2
    simpa [hst0] using h2
  by_cases hraised : st.raised = true
  · have hstopnone : st.stopped = none := by
      cases hso : st.stopped with
      | none => rfl
      | some k =>
        have h2 := fwdStep_stop_raise (env.fwd fi) env.cancelAt s.job_id fi
          total imgCount (env.fname fi)
          (List.range' startPage (total - startPage)) st0 rfl rfl
        rw [← hst] at h2
        have h3 := h2 (by rw [hso]; rfl)
        rw [h3] at hraised
        exact absurd hraised (by simp)
    have hfb : fileBody env fi s total imgCount startPage pages failed =
        ({ s with
            polls := st.polls
            slot := st.slot
            trace := s.trace ++ st.trace }, false) := by
      rw [fileBody, ← hst0, ← hst]
      simp only [hraised, if_true]
    rw [hfb]
    refine ⟨addF, by simp [htrF2], by simpa using hpolls0, rfl, hcrF, ?_, ?_, ?_⟩
    · rw [statusTransOf_eq_nil addF (hnmF hstopnone)]
      simp
    · intro _
      exact statusTransOf_eq_nil addF (hnmF hstopnone)
    · exact Or.inl fun e he =>
        isCancelEv_false_of_isTransEv e (hnmF hstopnone e he)
  · rw [Bool.not_eq_true] at hraised
    by_cases hstop : st.stopped.isSome = true
    · -- cancelled during the forward pass
      obtain ⟨k, hso⟩ := Option.isSome_iff_exists.mp hstop
      obtain ⟨hfb2, _, _, hfbtr, _, hfbpolls⟩ :=
        fileBody_stopped_char env fi s total imgCount startPage pages failed
          (by rw [← hst0, ← hst, hso]; rfl)
      rw [← hst0, ← hst] at hfbtr hfbpolls
      obtain ⟨n, hn, hfire⟩ := by
        have h2 := fwdStep_fire (env.fwd fi) env.cancelAt s.job_id fi total
          imgCount (env.fname fi) (List.range' startPage (total - startPage))
          st0 rfl
        rw [← hst] at h2
        exact h2 hstop
      obtain ⟨pre, hpre, hpret⟩ := hsmF k hso
      cases hjid : s.job_id with
      | none =>
        rw [hjid] at hpre
        simp at hpre
        refine ⟨addF, by rw [hfbtr, htrF2], ?_, ?_, hcrF, ?_, ?_, ?_⟩
        · rw [hfbpolls]
          omega
        · obtain ⟨_, _, _, _, hj, _⟩ :=
            fileBody_stopped_char env fi s total imgCount startPage pages
              failed (by rw [← hst0, ← hst, hso]; rfl)
          rw [hjid] at hj
          exact hj
        · rw [hpre, statusTransOf_eq_nil pre hpret]
          simp
        · intro hfalse
          rw [hfb2] at hfalse
          exact absurd hfalse (by simp)
        · exact Or.inl (by
            rw [hpre]
            exact fun e he => isCancelEv_false_of_isTransEv e (hpret e he))
      | some id =>
        rw [hjid] at hpre
        refine ⟨addF, by rw [hfbtr, htrF2], ?_, ?_, hcrF, ?_, ?_, ?_⟩
        · rw [hfbpolls]
          omega
        · obtain ⟨_, _, _, _, hj, _⟩ :=
            fileBody_stopped_char env fi s total imgCount startPage pages
              failed (by rw [← hst0, ← hst, hso]; rfl)
          rw [hjid] at hj
          exact hj
        · rw [hpre, statusTransOf_append, statusTransOf_eq_nil pre hpret]
          simp [statusTransOf]
        · intro hfalse
          rw [hfb2] at hfalse
          exact absurd hfalse (by simp)
        · refine Or.inr ⟨pre, id, k, hpre, ?_, ⟨n, ?_, hfire⟩, ?_⟩
          · exact fun e he => isCancelEv_false_of_isTransEv e (hpret e he)
          · rw [hfbpolls]
            omega
          · exact hstop
    · -- forward pass finished cleanly
      have hstopnone : st.stopped = none := by
        cases hso : st.stopped with
        | none => rfl
        | some k => exact absurd (by rw [hso]; rfl) hstop
      have hnm := hnmF hstopnone
      have haddFcancel : ∀ e ∈ addF, isCancelEv e = false := fun e he =>
        isCancelEv_false_of_isTransEv e (hnm e he)
      by_cases hgate : (!cancelRead env.cancelAt st.polls &&
          !st.failed.isEmpty) = true
      · -- retry sweep entered
        set rs0 : SweepSt := ⟨st.pages, [], st.polls + 1, [], false, false⟩
          with hrs0
        set rst := retryStep (env.rtry fi) env.cancelAt fi imgCount rs0
          st.failed with hrst
        obtain ⟨addR, htrR, hpR⟩ :=
          retryStep_shape (env.rtry fi) env.cancelAt fi imgCount st.failed rs0
        rw [← hrst] at htrR
        have htrR2 : rst.trace = addR := by
          rw [htrR]
          simp [hrs0]
        have hpollsR : st.polls + 1 ≤ rst.polls := by
          have h2 := retryStep_polls_le (env.rtry fi) env.cancelAt fi imgCount
            st.failed rs0
          rw [← hrst] at h2
          simpa [hrs0] using h2
        have haddRcancel : ∀ e ∈ addR, isCancelEv e = false := by
          intro e he
          have := hpR e he
          cases e <;> first
            | rfl
            | exact absurd this (by simp [isPageEv])
        have haddRtrans : ∀ e ∈ addR, isTransEv e = false := by
          intro e he
          have := hpR e he
          cases e <;> first
            | rfl
            | exact absurd this (by simp [isPageEv])
        have haddRcreate : ∀ e ∈ addR, isCreateEv e = false := by
          intro e he
          have := hpR e he
          cases e <;> first
            | rfl
            | exact absurd this (by simp [isPageEv])
        by_cases hrr : rst.raised = true
        · have hfb : fileBody env fi s total imgCount startPage pages failed =
              ({ s with
                  polls := rst.polls
                  slot := st.slot
                  trace := s.trace ++ st.trace ++ rst.trace }, false) := by
            rw [fileBody, ← hst0, ← hst]
            simp only [hraised, Bool.false_eq_true, if_false, hgate, if_true,
              ← hrs0, ← hrst, hrr]
          rw [hfb]
          refine ⟨addF ++ addR, ?_, ?_, rfl, ?_, ?_, ?_, ?_⟩
          · simp [htrF2, htrR2, List.append_assoc]
          · simp only []
            omega
          · intro e he
            rcases List.mem_append.mp he with h | h
            · exact hcrF e h
            · exact haddRcreate e h
          · rw [statusTransOf_append, statusTransOf_eq_nil addF hnm,
              statusTransOf_eq_nil addR haddRtrans]
            simp
          · intro _
            rw [statusTransOf_append, statusTransOf_eq_nil addF hnm,
              statusTransOf_eq_nil addR haddRtrans]
            rfl
          · refine Or.inl ?_
            intro e he
            rcases List.mem_append.mp he with h | h
            · exact haddFcancel e h
            · exact haddRcancel e h
        · rw [Bool.not_eq_true] at hrr
          by_cases hc2 : cancelRead env.cancelAt rst.polls = true
          · have hfb : fileBody env fi s total imgCount startPage pages failed =
                ({ s with
                    polls := rst.polls + 1
                    slot := st.slot
                    trace := s.trace ++ st.trace ++ rst.trace
                    results := s.results ++ [(rst.pages, rst.retryFailed)] },
                 true) := by
              rw [fileBody]
              simp only [← hst0, ← hst, finishFile, hraised, Bool.false_eq_true,
                if_false, hgate, if_true, ← hrs0, ← hrst, hrr, hc2,
                Bool.not_true, Bool.false_and]
            rw [hfb]
            refine ⟨addF ++ addR, ?_, ?_, rfl, ?_, ?_, ?_, ?_⟩
            · simp [htrF2, htrR2, List.append_assoc]
            · simp only []
              omega
            · intro e he
              rcases List.mem_append.mp he with h | h
              · exact hcrF e h
              · exact haddRcreate e h
            · rw [statusTransOf_append, statusTransOf_eq_nil addF hnm,
                statusTransOf_eq_nil addR haddRtrans]
              simp
            · intro hfalse
              exact absurd hfalse (by simp)
            · refine Or.inl ?_
              intro e he
              rcases List.mem_append.mp he with h | h
              · exact haddFcancel e h
              · exact haddRcancel e h
          · have hfb : fileBody env fi s total imgCount startPage pages failed =
                ({ s with
                    polls := rst.polls + 1
                    slot := none
                    trace := s.trace ++ st.trace ++ rst.trace ++
                      ((match s.job_id with
                        | some id => [Event.completeJob id rst.retryFailed.length]
                        | none => []) ++ [Event.clearProgress])
                    results := s.results ++ [(rst.pages, rst.retryFailed)] },
                 true) := by
              rw [fileBody]
              simp only [← hst0, ← hst, finishFile, hraised, Bool.false_eq_true,
                if_false, hgate, if_true, ← hrs0, ← hrst, hrr, hc2,
                Bool.not_false, Bool.true_and, List.append_assoc]
            rw [hfb]
            refine ⟨addF ++ addR ++
              ((match s.job_id with
                | some id => [Event.completeJob id rst.retryFailed.length]
                | none => []) ++ [Event.clearProgress]), ?_, ?_, rfl, ?_, ?_,
              ?_, ?_⟩
            · simp [htrF2, htrR2, List.append_assoc]
            · simp only []
              omega
            · intro e he
              rcases List.mem_append.mp he with h | h
              · rcases List.mem_append.mp h with h2 | h2
                · exact hcrF e h2
                · exact haddRcreate e h2
              · rcases List.mem_append.mp h with h2 | h2
                · cases hjid : s.job_id with
                  | none => rw [hjid] at h2; simp at h2
                  | some id =>
                    rw [hjid] at h2
                    rw [List.mem_singleton.mp h2]
                    rfl
                · rw [List.mem_singleton.mp h2]
                  rfl
            · rw [statusTransOf_append, statusTransOf_append,
                statusTransOf_eq_nil addF hnm,
                statusTransOf_eq_nil addR haddRtrans]
              cases s.job_id <;> simp [statusTransOf]
            · intro hfalse
              exact absurd hfalse (by simp)
            · refine Or.inl ?_
              intro e he
              rcases List.mem_append.mp he with h | h
              · rcases List.mem_append.mp h with h2 | h2
                · exact haddFcancel e h2
                · exact haddRcancel e h2
              · rcases List.mem_append.mp h with h2 | h2
                · cases hjid : s.job_id with
                  | none => rw [hjid] at h2; simp at h2
                  | some id =>
                    rw [hjid] at h2
                    rw [List.mem_singleton.mp h2]
                    rfl
                · rw [List.mem_singleton.mp h2]
                  rfl
      · -- retry sweep skipped
        by_cases hc2 : cancelRead env.cancelAt (st.polls + 1) = true
        · have hfb : fileBody env fi s total imgCount startPage pages failed =
              ({ s with
                  polls := st.polls + 1 + 1
                  slot := st.slot
                  trace := s.trace ++ st.trace
                  results := s.results ++ [(st.pages, st.failed)] }, true) := by
            rw [fileBody]
            simp only [← hst0, ← hst, finishFile, hraised, Bool.false_eq_true,
              if_false, hgate, hc2, Bool.not_true, Bool.false_and, if_true]
          rw [hfb]
          refine ⟨addF, by simp [htrF2], ?_, rfl, hcrF, ?_, ?_, ?_⟩
          · simp only []
            omega
          · rw [statusTransOf_eq_nil addF hnm]
            simp
          · intro hfalse
            exact absurd hfalse (by simp)
          · exact Or.inl haddFcancel
        · have hfb : fileBody env fi s total imgCount startPage pages failed =
              ({ s with
                  polls := st.polls + 1 + 1
                  slot := none
                  trace := s.trace ++ st.trace ++
                    ((match s.job_id with
                      | some id => [Event.completeJob id st.failed.length]
                      | none => []) ++ [Event.clearProgress])
                  results := s.results ++ [(st.pages, st.failed)] }, true) := by
            rw [fileBody]
            simp only [← hst0, ← hst, finishFile, hraised, Bool.false_eq_true,
              if_false, hgate, hc2, Bool.not_false, Bool.true_and, if_true,
              eq_self_iff_true, List.append_assoc]
          rw [hfb]
          refine ⟨addF ++
            ((match s.job_id with
              | some id => [Event.completeJob id st.failed.length]
              | none => []) ++ [Event.clearProgress]), ?_, ?_, rfl, ?_, ?_,
            ?_, ?_⟩
          · simp [htrF2, List.append_assoc]
          · simp only []
            omega
          · intro e he
            rcases List.mem_append.mp he with h | h
            · exact hcrF e h
            · rcases List.mem_append.mp h with h2 | h2
              · cases hjid : s.job_id with
                | none => rw [hjid] at h2; simp at h2
                | some id =>
                  rw [hjid] at h2
                  rw [List.mem_singleton.mp h2]
                  rfl
              · rw [List.mem_singleton.mp h2]
                rfl
          · rw [statusTransOf_append, statusTransOf_eq_nil addF hnm]
            cases s.job_id <;> simp [statusTransOf]
          · intro hfalse
            exact absurd hfalse (by simp)
          · refine Or.inl ?_
            intro e he
            rcases List.mem_append.mp he with h | h
            · exact haddFcancel e h
            · rcases List.mem_append.mp h with h2 | h2
              · cases hjid : s.job_id with
                | none => rw [hjid] at h2; simp at h2
                | some id =>
                  rw [hjid] at h2
                  rw [List.mem_singleton.mp h2]
                  rfl
              · rw [List.mem_singleton.mp h2]
                rfl

/-- Global shape of one per-file iteration including initialisation: a
resumed file never calls `create_job`; at most one status transition is
attempted, none when an exception escapes; and a `cancelled` update, when
pushed, is the last event added and implies an earlier true poll. -/
theorem processFile_shape (env : Env) (fi : Nat) (rd : Option Checkpoint)
    (s : Sys) :
    ∃ add,
      (processFile env fi rd s).1.trace = s.trace ++ add ∧
      s.polls ≤ (processFile env fi rd s).1.polls ∧
      (rd.isSome = true → ∀ e ∈ add, isCreateEv e = false) ∧
      (statusTransOf add).length ≤ 1 ∧
      ((processFile env fi rd s).2 = false → statusTransOf add = []) ∧
      ((∀ e ∈ add, isCancelEv e = false) ∨
        (∃ pre id k, add = pre ++ [Event.cancelJob id k] ∧
          (∀ e ∈ pre, isCancelEv e = false) ∧
          (∃ n, n < (processFile env fi rd s).1.polls ∧
            cancelRead env.cancelAt n = true))) := by
  match rd with
  | some cp =>
    cases hr : env.rasterize fi with
    | none =>
      have hpf : processFile env fi (some cp) s =
          ({ s with job_id := cp.job_id }, false) := by
        rw [processFile, hr]
      rw [hpf]
      exact ⟨[], by simp, Nat.le_refl _, by simp, by simp [statusTransOf],
        fun _ => rfl, Or.inl (by simp)⟩
    | some n =>
      have hpf : processFile env fi (some cp) s =
          fileBody env fi { s with job_id := cp.job_id } cp.total_pages n
            cp.completed_pages cp.markdown_pages cp.failed_pages := by
        rw [processFile, hr]
      obtain ⟨add, h1, h2, _, h4, h5, h6, h7⟩ :=
        fileBody_shape env fi { s with job_id := cp.job_id } cp.total_pages n
          cp.completed_pages cp.markdown_pages cp.failed_pages
      rw [← hpf] at h1 h2 h6 h7
      refine ⟨add, by simpa using h1, by simpa using h2, fun _ => h4, h5, h6, ?_⟩
      rcases h7 with h7 | ⟨pre, id, k, hp1, hp2, hp3, _⟩
      · exact Or.inl h7
      · exact Or.inr ⟨pre, id, k, hp1, hp2, hp3⟩
  | none =>
    cases hr : env.rasterize fi with
    | none =>
      have hpf : processFile env fi none s = (s, false) := by
        rw [processFile, hr]
      rw [hpf]
      exact ⟨[], by simp, Nat.le_refl _, by simp, by simp [statusTransOf],
        fun _ => rfl, Or.inl (by simp)⟩
    | some total =>
      cases hcr : env.createRes s.creates with
      | none =>
        have hpf : processFile env fi none s =
            ({ s with
                creates := s.creates + 1
                trace := s.trace ++ [Event.createJob (env.fname fi) total none]
                job_id := none }, false) := by
          rw [processFile, hr]
          simp only [hcr]
        rw [hpf]
        refine ⟨[Event.createJob (env.fname fi) total none], by simp, by simp,
          by simp, by simp [statusTransOf], fun _ => rfl, Or.inl ?_⟩
        intro e he
        rw [List.mem_singleton.mp he]
        rfl
      | some j =>
        have hpf : processFile env fi none s =
            fileBody env fi
              { s with
                  creates := s.creates + 1
                  trace := s.trace ++
                    [Event.createJob (env.fname fi) total (some j)] ++
                    [Event.saveProgress
                       ⟨total, 0, List.replicate total "", [],
                         env.fname fi, some j⟩]
                  job_id := some j
                  slot := some ⟨total, 0, List.replicate total "", [],
                    env.fname fi, some j⟩ }
              total total 0 (List.replicate total "") [] := by
          rw [processFile, hr]
          simp only [hcr]
        obtain ⟨add, h1, h2, _, h4, h5, h6, h7⟩ :=
          fileBody_shape env fi
            { s with
                creates := s.creates + 1
                trace := s.trace ++
                  [Event.createJob (env.fname fi) total (some j)] ++
                  [Event.saveProgress
                     ⟨total, 0, List.replicate total "", [],
                       env.fname fi, some j⟩]
                job_id := some j
                slot := some ⟨total, 0, List.replicate total "", [],
                  env.fname fi, some j⟩ }
            total total 0 (List.replicate total "") []
        rw [← hpf] at h1 h2 h6 h7
        refine ⟨Event.createJob (env.fname fi) total (some j) ::
          Event.saveProgress
            ⟨total, 0, List.replicate total "", [], env.fname fi, some j⟩ ::
          add, ?_, ?_, by simp, ?_, ?_, ?_⟩
        · rw [h1]
          simp [List.append_assoc]
        · simpa using h2
        · rw [show statusTransOf (Event.createJob (env.fname fi) total (some j) ::
            Event.saveProgress
              ⟨total, 0, List.replicate total "", [], env.fname fi, some j⟩ ::
            add) = statusTransOf add from rfl]
          exact h5
        · intro hfalse
          rw [show statusTransOf (Event.createJob (env.fname fi) total (some j) ::
            Event.saveProgress
              ⟨total, 0, List.replicate total "", [], env.fname fi, some j⟩ ::
            add) = statusTransOf add from rfl]
          exact h6 hfalse
        · rcases h7 with h7 | ⟨pre, id, k, hp1, hp2, hp3, _⟩
          · refine Or.inl ?_
            intro e he
            rcases List.mem_cons.mp he with h | h
            · rw [h]; rfl
            · rcases List.mem_cons.mp h with h2 | h2
              · rw [h2]; rfl
              · exact h7 e h2
          · refine Or.inr ⟨Event.createJob (env.fname fi) total (some j) ::
              Event.saveProgress
                ⟨total, 0, List.replicate total "", [], env.fname fi, some j⟩ ::
              pre, id, k, ?_, ?_, hp3⟩
            · simp [hp1]
            · intro e he
              rcases List.mem_cons.mp he with h | h
              · rw [h]; rfl
              · rcases List.mem_cons.mp h with h2 | h2
                · rw [h2]; rfl
                · exact hp2 e h2

/-- A trace without `cancel_job` events trivially has nothing after a
`cancel_job` event. -/
theorem noneAfterCancelJob_of_noCancel (l : List Event)
    (h : ∀ e ∈ l, isCancelEv e = false) : noneAfterCancelJob l = true := by
  induction l with
  | nil => rfl
  | cons e t ih =>
    have he := h e (List.mem_cons_self e t)
    have ht := ih fun x hx => h x (List.mem_cons_of_mem e hx)
    cases e <;> first
      | exact ht
      | exact absurd he (by simp [isCancelEv])

/-- A trace whose only `cancel_job` event is its very last event passes
the nothing-after-cancellation check. -/
theorem noneAfterCancelJob_last (pre : List Event) (id k : Nat)
    (h : ∀ e ∈ pre, isCancelEv e = false) :
    noneAfterCancelJob (pre ++ [Event.cancelJob id k]) = true := by
  induction pre with
  | nil => rfl
  | cons e t ih =>
    have he := h e (List.mem_cons_self e t)
    have ht := ih fun x hx => h x (List.mem_cons_of_mem e hx)
    cases e <;> first
      | exact ht
      | exact absurd he (by simp [isCancelEv])

/-- Lists of length at most one have no duplicates. -/
theorem nodup_of_len_le_one (l : List Nat) (h : l.length ≤ 1) : l.Nodup := by
  match l with
  | [] => exact List.nodup_nil
  | [a] => simp
  | a :: b :: t => simp at h

/-- The forward pass cannot raise when every page index is in range of
the rasterized images. -/
theorem fwdStep_noraise (fwd : Nat → String × Bool) (cancelAt : Option Nat)
    (jid : Option Nat) (fi total imgCount : Nat) (fname : String)
    (l : List Nat) :
    ∀ st : LoopSt, st.raised = false → (∀ i ∈ l, i < imgCount) →
      (fwdStep fwd cancelAt jid fi total imgCount fname st l).raised = false := by
  induction l with
  | nil => intro st h _; exact h
  | cons i rest ih =>
    intro st h hb
    by_cases hg : (st.stopped.isSome || st.raised) = true
    · rw [fwdStep_guard _ _ _ _ _ _ _ _ _ hg]
      exact h
    · rw [Bool.not_eq_true] at hg
      have hs : st.stopped.isSome = false := by
        cases hss : st.stopped.isSome
        · rfl
        · rw [hss] at hg
          simp at hg
      by_cases hc : cancelRead cancelAt st.polls = true
      · simp [fwdStep, hs, hc, cancelBreak, h]
      · rw [Bool.not_eq_true] at hc
        have hi : i < imgCount := hb i (List.mem_cons_self i rest)
        have hstep : fwdStep fwd cancelAt jid fi total imgCount fname st
            (i :: rest) =
            fwdStep fwd cancelAt jid fi total imgCount fname
              (fwdOne fwd jid fi total fname { st with polls := st.polls + 1 } i)
              rest := by
          simp [fwdStep, hg, hc, hi]
        rw [hstep]
        obtain ⟨_, _, _, _, hor⟩ :=
          fwdOne_char fwd jid fi total fname { st with polls := st.polls + 1 } i
        exact ih _ (by rw [hor]; exact h)
          (fun x hx => hb x (List.mem_cons_of_mem i hx))

/-- Failed-page indices accumulated by the forward pass come from the
initial list or the processed index list. -/
theorem fwdStep_failed_bound (fwd : Nat → String × Bool)
    (cancelAt : Option Nat) (jid : Option Nat) (fi total imgCount : Nat)
    (fname : String) (l : List Nat) :
    ∀ st : LoopSt, (∀ i ∈ st.failed, i < imgCount) →
      (∀ i ∈ l, i < imgCount) →
      ∀ i ∈ (fwdStep fwd cancelAt jid fi total imgCount fname st l).failed,
        i < imgCount := by
  induction l with
  | nil => intro st h _; exact h
  | cons i rest ih =>
    intro st h hb
    by_cases hg : (st.stopped.isSome || st.raised) = true
    · rw [fwdStep_guard _ _ _ _ _ _ _ _ _ hg]
      exact h
    · rw [Bool.not_eq_true] at hg
      by_cases hc : cancelRead cancelAt st.polls = true
      · intro x hx
        have : (fwdStep fwd cancelAt jid fi total imgCount fname st
            (i :: rest)).failed = st.failed := by
          simp [fwdStep, hg, hc, cancelBreak]
        rw [this] at hx
        exact h x hx
      · rw [Bool.not_eq_true] at hc
        by_cases hi : i < imgCount
        · have hstep : fwdStep fwd cancelAt jid fi total imgCount fname st
              (i :: rest) =
              fwdStep fwd cancelAt jid fi total imgCount fname
                (fwdOne fwd jid fi total fname
                  { st with polls := st.polls + 1 } i) rest := by
            simp [fwdStep, hg, hc, hi]
          rw [hstep]
          obtain ⟨_, hff, _, _, _⟩ :=
            fwdOne_char fwd jid fi total fname
              { st with polls := st.polls + 1 } i
          refine ih _ ?_ (fun x hx => hb x (List.mem_cons_of_mem i hx))
          intro x hx
          rw [hff] at hx
          rcases List.mem_append.mp hx with h2 | h2
          · exact h x h2
          · by_cases hok : (fwd i).2 = true
            · rw [if_pos hok] at h2
              simp at h2
            · rw [Bool.not_eq_true] at hok
              rw [if_neg (by simp [hok])] at h2
              rw [List.mem_singleton.mp h2]
              exact hi
        · intro x hx
          have : (fwdStep fwd cancelAt jid fi total imgCount fname st
              (i :: rest)).failed = st.failed := by
            simp [fwdStep, hg, hc, hi]
          rw [this] at hx
          exact h x hx

/-- The retry sweep cannot raise when every pending index is in range. -/
theorem retryStep_noraise (rtry : Nat → String × Bool) (cancelAt : Option Nat)
    (fi imgCount : Nat) (l : List Nat) :
    ∀ st : SweepSt, st.raised = false → (∀ i ∈ l, i < imgCount) →
      (retryStep rtry cancelAt fi imgCount st l).raised = false := by
  induction l with
  | nil => intro st h _; exact h
  | cons i rest ih =>
    intro st h hb
    by_cases hg : (st.raised || st.brokeOut) = true
    · have hbo : st.brokeOut = true := by
        rw [h] at hg
        simpa using hg
      simp [retryStep, h, hbo]
    · rw [Bool.not_eq_true] at hg
      have hbo : st.brokeOut = false := by
        cases hbb : st.brokeOut
        · rfl
        · rw [hbb] at hg
          simp at hg
      by_cases hc : cancelRead cancelAt st.polls = true
      · simp [retryStep, h, hbo, hc]
      · rw [Bool.not_eq_true] at hc
        have hi : i < imgCount := hb i (List.mem_cons_self i rest)
        have hstep : retryStep rtry cancelAt fi imgCount st (i :: rest) =
            retryStep rtry cancelAt fi imgCount
              (retryOne rtry fi { st with polls := st.polls + 1 } i) rest := by
          simp [retryStep, hg, hc, hi]
        rw [hstep]
        obtain ⟨_, _, _, hrr, _, _⟩ :=
          retryOne_char rtry fi { st with polls := st.polls + 1 } i
        exact ih _ (by rw [hrr]; exact h)
          (fun x hx => hb x (List.mem_cons_of_mem i hx))

/-- The per-file pipeline body ends without an exception when every
processed page index is in range of the rasterized images. -/
theorem fileBody_ok (env : Env) (fi : Nat) (s : Sys)
    (total imgCount startPage : Nat) (pages : List String) (failed : List Nat)
    (hb : ∀ i ∈ List.range' startPage (total - startPage), i < imgCount)
    (hbf : ∀ i ∈ failed, i < imgCount) :
    (fileBody env fi s total imgCount startPage pages failed).2 = true := by
  set st0 : LoopSt := ⟨pages, failed, s.polls, s.slot, [], none, false⟩ with hst0
  set st := fwdStep (env.fwd fi) env.cancelAt s.job_id fi total imgCount
    (env.fname fi) st0 (List.range' startPage (total - startPage)) with hst
  have hraised : st.raised = false := by
    have h2 := fwdStep_noraise (env.fwd fi) env.cancelAt s.job_id fi total
      imgCount (env.fname fi) (List.range' startPage (total - startPage)) st0
      rfl hb
    rw [← hst] at h2
    exact h2
  have hfailedb : ∀ i ∈ st.failed, i < imgCount := by
    have h2 := fwdStep_failed_bound (env.fwd fi) env.cancelAt s.job_id fi total
      imgCount (env.fname fi) (List.range' startPage (total - startPage)) st0
      (by intro i hi; exact hbf i hi) hb
    rw [← hst] at h2
    exact h2
  rw [fileBody, ← hst0, ← hst]
  simp only [hraised, Bool.false_eq_true, if_false]
  by_cases hgate : (!cancelRead env.cancelAt st.polls &&
      !st.failed.isEmpty) = true
  · simp only [hgate, if_true]
    have hrr : (retryStep (env.rtry fi) env.cancelAt fi imgCount
        ⟨st.pages, [], st.polls + 1, [], false, false⟩ st.failed).raised =
        false :=
      retryStep_noraise (env.rtry fi) env.cancelAt fi imgCount st.failed
        ⟨st.pages, [], st.polls + 1, [], false, false⟩ rfl hfailedb
    simp only [hrr, Bool.false_eq_true, if_false, finishFile]
  · simp only [hgate, Bool.false_eq_true, if_false, finishFile]

/-- Unfolding of a fresh single-file run whose first poll reads false:
after creating the job and writing the initial checkpoint, the pipeline
body runs on the blank page array. -/
theorem run_fresh_unfold (name : String) (P id : Nat)
    (fwd rtry : Nat → String × Bool) (cancelAt : Option Nat)
    (hc0 : cancelRead cancelAt 0 = false) :
    run (freshEnv name P id fwd rtry cancelAt) =
      (fileBody (freshEnv name P id fwd rtry cancelAt) 0
        { polls := 1, creates := 1, job_id := some id,
          slot := some ⟨P, 0, List.replicate P "", [], name, some id⟩,
          trace := [Event.createJob name P (some id),
            Event.saveProgress ⟨P, 0, List.replicate P "", [], name, some id⟩],
          results := [] }
        P P 0 (List.replicate P "") []).1 := by
  rw [run]
  show runFiles (freshEnv name P id fwd rtry cancelAt) [(0, none)]
    ⟨0, 0, none, none, [], []⟩ = _
  rw [runFiles]
  have hpf : processFile (freshEnv name P id fwd rtry cancelAt) 0 none
      ⟨0 + 1, 0, none, none, [], []⟩ =
      fileBody (freshEnv name P id fwd rtry cancelAt) 0
        { polls := 1, creates := 1, job_id := some id,
          slot := some ⟨P, 0, List.replicate P "", [], name, some id⟩,
          trace := [Event.createJob name P (some id),
            Event.saveProgress ⟨P, 0, List.replicate P "", [], name, some id⟩],
          results := [] }
        P P 0 (List.replicate P "") [] := rfl
  show (if cancelRead (freshEnv name P id fwd rtry cancelAt).cancelAt 0 = true
      then ({ polls := 0 + 1, creates := 0, job_id := none, slot := none,
              trace := [], results := [] } : Sys)
      else
        let pr := processFile (freshEnv name P id fwd rtry cancelAt) 0 none
          ⟨0 + 1, 0, none, none, [], []⟩
        if pr.2 then runFiles (freshEnv name P id fwd rtry cancelAt) [] pr.1
        else
          match pr.1.job_id with
          | some jd => { pr.1 with trace := pr.1.trace ++ [Event.failJob jd] }
          | none => pr.1) = _
  rw [if_neg (by rw [show (freshEnv name P id fwd rtry cancelAt).cancelAt =
    cancelAt from rfl, hc0]; simp)]
  rw [hpf]
  by_cases hb2 : (fileBody (freshEnv name P id fwd rtry cancelAt) 0
      { polls := 1, creates := 1, job_id := some id,
        slot := some ⟨P, 0, List.replicate P "", [], name, some id⟩,
        trace := [Event.createJob name P (some id),
          Event.saveProgress ⟨P, 0, List.replicate P "", [], name, some id⟩],
        results := [] }
      P P 0 (List.replicate P "") []).2 = true
  · simp only [hb2, if_true]
    rfl
  · exfalso
    apply hb2
    refine fileBody_ok _ _ _ _ _ _ _ _ ?_ ?_
    · intro i hi
      rw [List.mem_range'_1] at hi
      omega
    · intro i hi
      simp at hi

/-- A trace without `cancel_job` events filters to nothing under the
`cancel_job` classifier. -/
theorem filter_cancel_eq_nil (l : List Event)
    (h : ∀ e ∈ l, isCancelEv e = false) : l.filter isCancelEv = [] := by
  induction l with
  | nil => rfl
  | cons e t ih =>
    rw [List.filter_cons]
    simp only [h e (List.mem_cons_self e t), Bool.false_eq_true, if_false]
    exact ih fun x hx => h x (List.mem_cons_of_mem e hx)

/-- The events of the forward pass are an infix of the final per-file
trace, directly after the caller's events. -/
theorem fileBody_trace_infix (env : Env) (fi : Nat) (s : Sys)
    (total imgCount startPage : Nat) (pages : List String)
    (failed : List Nat) :
    ∃ tail,
      (fileBody env fi s total imgCount startPage pages failed).1.trace =
        s.trace ++
          (fwdStep (env.fwd fi) env.cancelAt s.job_id fi total imgCount
            (env.fname fi) ⟨pages, failed, s.polls, s.slot, [], none, false⟩
            (List.range' startPage (total - startPage))).trace ++ tail := by
  set st0 : LoopSt := ⟨pages, failed, s.polls, s.slot, [], none, false⟩ with hst0
  set st := fwdStep (env.fwd fi) env.cancelAt s.job_id fi total imgCount
    (env.fname fi) st0 (List.range' startPage (total - startPage)) with hst
  by_cases hraised : st.raised = true
  · refine ⟨[], ?_⟩
    rw [fileBody, ← hst0, ← hst]
    simp [hraised]
  · rw [Bool.not_eq_true] at hraised
    by_cases hgate : (!cancelRead env.cancelAt st.polls &&
        !st.failed.isEmpty) = true
    · set rs0 : SweepSt := ⟨st.pages, [], st.polls + 1, [], false, false⟩
        with hrs0
      set rst := retryStep (env.rtry fi) env.cancelAt fi imgCount rs0
        st.failed with hrst
      by_cases hrr : rst.raised = true
      · have hfb : fileBody env fi s total imgCount startPage pages failed =
            ({ s with
                polls := rst.polls
                slot := st.slot
                trace := s.trace ++ st.trace ++ rst.trace }, false) := by
          rw [fileBody, ← hst0, ← hst]
          simp only [hraised, Bool.false_eq_true, if_false, hgate, if_true,
            ← hrs0, ← hrst, hrr]
        refine ⟨rst.trace, ?_⟩
        rw [hfb]
      · rw [Bool.not_eq_true] at hrr
        by_cases hc2 : cancelRead env.cancelAt rst.polls = true
        · have hfb : fileBody env fi s total imgCount startPage pages failed =
              ({ s with
                  polls := rst.polls + 1
                  slot := st.slot
                  trace := s.trace ++ st.trace ++ rst.trace
                  results := s.results ++ [(rst.pages, rst.retryFailed)] },
               true) := by
            rw [fileBody]
            simp only [← hst0, ← hst, finishFile, hraised, Bool.false_eq_true,
              if_false, hgate, if_true, ← hrs0, ← hrst, hrr, hc2,
              Bool.not_true, Bool.false_and]
          refine ⟨rst.trace, ?_⟩
          rw [hfb]
        · have hfb : fileBody env fi s total imgCount startPage pages failed =
              ({ s with
                  polls := rst.polls + 1
                  slot := none
                  trace := s.trace ++ st.trace ++ rst.trace ++
                    ((match s.job_id with
                      | some id => [Event.completeJob id rst.retryFailed.length]
                      | none => []) ++ [Event.clearProgress])
                  results := s.results ++ [(rst.pages, rst.retryFailed)] },
               true) := by
            rw [fileBody]
            simp only [← hst0, ← hst, finishFile, hraised, Bool.false_eq_true,
              if_false, hgate, if_true, ← hrs0, ← hrst, hrr, hc2,
              Bool.not_false, Bool.true_and, List.append_assoc]
          refine ⟨rst.trace ++
            ((match s.job_id with
              | some id => [Event.completeJob id rst.retryFailed.length]
              | none => []) ++ [Event.clearProgress]), ?_⟩
          rw [hfb]
          simp [List.append_assoc]
    · by_cases hc2 : cancelRead env.cancelAt (st.polls + 1) = true
      · have hfb : fileBody env fi s total imgCount startPage pages failed =
            ({ s with
                polls := st.polls + 1 + 1
                slot := st.slot
                trace := s.trace ++ st.trace
                results := s.results ++ [(st.pages, st.failed)] }, true) := by
          rw [fileBody]
          simp only [← hst0, ← hst, finishFile, hraised, Bool.false_eq_true,
            if_false, hgate, hc2, Bool.not_true, Bool.false_and, if_true]
        refine ⟨[], ?_⟩
        rw [hfb]
        simp
      · have hfb : fileBody env fi s total imgCount startPage pages failed =
            ({ s with
                polls := st.polls + 1 + 1
                slot := none
                trace := s.trace ++ st.trace ++
                  ((match s.job_id with
                    | some id => [Event.completeJob id st.failed.length]
                    | none => []) ++ [Event.clearProgress])
                results := s.results ++ [(st.pages, st.failed)] }, true) := by
          rw [fileBody]
          simp only [← hst0, ← hst, finishFile, hraised, Bool.false_eq_true,
            if_false, hgate, hc2, Bool.not_false, Bool.true_and, if_true,
            eq_self_iff_true, List.append_assoc]
        refine ⟨(match s.job_id with
          | some id => [Event.completeJob id st.failed.length]
          | none => []) ++ [Event.clearProgress], ?_⟩
        rw [hfb]

/-- Every tenth page, the checkpoint written by the forward-pass page
body is an event of its trace. -/
theorem fwdOne_save_mem (fwd : Nat → String × Bool) (jid : Option Nat)
    (fi total : Nat) (fname : String) (st : LoopSt) (i : Nat)
    (hten : ((i + 1) % 10 == 0) = true) (cp : Checkpoint)
    (hcp : cp = ⟨total, i + 1,
      (if (fwd i).2 then st.pages.set i (fwd i).1 else st.pages),
      st.failed ++ (if (fwd i).2 then [] else [i]), fname, jid⟩) :
    Event.saveProgress cp ∈ (fwdOne fwd jid fi total fname st i).trace := by
  subst hcp
  by_cases hok : (fwd i).2 = true <;> cases jid <;> simp [fwdOne, hok, hten]

/-- An uncancelled forward pass that crosses the 10-page boundary `10*j`
emits the boundary checkpoint write: pages and failures of exactly the
first `10*j` entries. -/
theorem fwdStep_none_save_mem (fwd : Nat → String × Bool) (jid : Option Nat)
    (fi total imgCount : Nat) (fname : String) (m j : Nat)
    (hj : 1 ≤ j) (hjm : 10 * j ≤ m) (hb : ∀ i ∈ List.range m, i < imgCount)
    (st : LoopSt) (h0 : st.stopped = none) (h1 : st.raised = false) :
    Event.saveProgress
        ⟨total, 10 * j, applySucc fwd st.pages (List.range (10 * j)),
          st.failed ++ (List.range (10 * j)).filter (fun i => !(fwd i).2),
          fname, jid⟩ ∈
      (fwdStep fwd none jid fi total imgCount fname st (List.range m)).trace := by
  have hsplit : List.range m =
      List.range (10 * j) ++ List.range' (10 * j) (m - 10 * j) := by
    rw [List.range_eq_range', List.range_eq_range']
    have h2 := List.range'_append 0 (10 * j) (m - 10 * j) 1
    rw [show 0 + 1 * (10 * j) = 10 * j from by omega,
      show m - 10 * j + 10 * j = m from by omega] at h2
    exact h2.symm
  have hsplit2 : List.range (10 * j) =
      List.range (10 * j - 1) ++ [10 * j - 1] := by
    have h2 := List.range_succ (10 * j - 1)
    have e : (10 * j - 1).succ = 10 * j := by omega
    rw [e] at h2
    exact h2
  have hbB : ∀ i ∈ List.range (10 * j - 1), i < imgCount := by
    intro i hi
    refine hb i (List.mem_range.mpr ?_)
    have := List.mem_range.mp hi
    omega
  obtain ⟨hBp, hBf, hBpl, hBs, hBr⟩ :=
    fwdStep_none_char fwd jid fi total imgCount fname
      (List.range (10 * j - 1)) st h0 h1 hbB
  set B := fwdStep fwd none jid fi total imgCount fname st
    (List.range (10 * j - 1)) with hB
  have hg : (B.stopped.isSome || B.raised) = false := by simp [hBs, hBr]
  have hlt : 10 * j - 1 < imgCount := by
    refine hb (10 * j - 1) (List.mem_range.mpr ?_)
    omega
  have hone : fwdStep fwd none jid fi total imgCount fname B [10 * j - 1] =
      fwdOne fwd jid fi total fname { B with polls := B.polls + 1 }
        (10 * j - 1) := by
    simp [fwdStep, hg, cancelRead, hlt]
  have hsteps : fwdStep fwd none jid fi total imgCount fname st
      (List.range (10 * j)) =
      fwdOne fwd jid fi total fname { B with polls := B.polls + 1 }
        (10 * j - 1) := by
    conv_lhs => rw [hsplit2]
    rw [fwdStep_append, ← hB, hone]
  have hten : (((10 * j - 1) + 1) % 10 == 0) = true := by
    rw [show (10 * j - 1) + 1 = 10 * j from by omega]
    simp [Nat.mul_mod_right]
  have hcp : (⟨total, 10 * j, applySucc fwd st.pages (List.range (10 * j)),
      st.failed ++ (List.range (10 * j)).filter (fun i => !(fwd i).2),
      fname, jid⟩ : Checkpoint) =
      ⟨total, (10 * j - 1) + 1,
        (if (fwd (10 * j - 1)).2 then
          ({ B with polls := B.polls + 1 } : LoopSt).pages.set (10 * j - 1)
            (fwd (10 * j - 1)).1
         else ({ B with polls := B.polls + 1 } : LoopSt).pages),
        ({ B with polls := B.polls + 1 } : LoopSt).failed ++
          (if (fwd (10 * j - 1)).2 then [] else [10 * j - 1]),
        fname, jid⟩ := by
    congr 1
    · omega
    · show applySucc fwd st.pages (List.range (10 * j)) =
        (if (fwd (10 * j - 1)).2 then
          B.pages.set (10 * j - 1) (fwd (10 * j - 1)).1 else B.pages)
      rw [hsplit2, applySucc_append, ← hBp]
      rfl
    · show st.failed ++ (List.range (10 * j)).filter (fun i => !(fwd i).2) =
        B.failed ++ (if (fwd (10 * j - 1)).2 then [] else [10 * j - 1])
      rw [hsplit2, List.filter_append, ← List.append_assoc, ← hBf]
      by_cases hok : (fwd (10 * j - 1)).2 = true <;>
        simp [hok, List.filter_cons]
  have hmem2 : Event.saveProgress
      ⟨total, 10 * j, applySucc fwd st.pages (List.range (10 * j)),
        st.failed ++ (List.range (10 * j)).filter (fun i => !(fwd i).2),
        fname, jid⟩ ∈
      (fwdStep fwd none jid fi total imgCount fname st
        (List.range (10 * j))).trace := by
    rw [hsteps]
    exact fwdOne_save_mem fwd jid fi total fname
      { B with polls := B.polls + 1 } (10 * j - 1) hten _ hcp
  rw [hsplit, fwdStep_append]
  obtain ⟨add2, hadd2⟩ :=
    fwdStep_trace_mono fwd none jid fi total imgCount fname
      (List.range' (10 * j) (m - 10 * j))
      (fwdStep fwd none jid fi total imgCount fname st (List.range (10 * j)))
  rw [hadd2]
  exact List.mem_append.mpr (Or.inl hmem2)

/-- Across the file loop, any `cancel_job` event is the final event of
the run's trace: the sticky cancel flag makes the top-of-file poll skip
every later file. -/
theorem runFiles_cancelLast (env : Env) :
    ∀ (l : List (Nat × Option Checkpoint)) (s : Sys),
      (∀ e ∈ s.trace, isCancelEv e = false) →
      noneAfterCancelJob (runFiles env l s).trace = true := by
  intro l
  induction l with
  | nil => intro s h; exact noneAfterCancelJob_of_noCancel _ h
  | cons p rest ih =>
    intro s h
    obtain ⟨fi, rd⟩ := p
    rw [runFiles]
    by_cases hc : cancelRead env.cancelAt s.polls = true
    · simp only [hc, if_true]
      exact noneAfterCancelJob_of_noCancel _ h
    · simp only [hc, Bool.false_eq_true, if_false]
      obtain ⟨add, h1, h2, _, _, h5, h6⟩ :=
        processFile_shape env fi rd { s with polls := s.polls + 1 }
      rcases h6 with hno | ⟨pre, id, k, hadd, hpre, n, hn, hfire⟩
      · by_cases hp2 : (processFile env fi rd
            { s with polls := s.polls + 1 }).2 = true
        · simp only [hp2, if_true]
          refine ih _ ?_
          rw [h1]
          intro e he
          rcases List.mem_append.mp he with h' | h'
          · exact h e h'
          · exact hno e h'
        · rw [Bool.not_eq_true] at hp2
          simp only [hp2, Bool.false_eq_true, if_false]
          cases hjid : (processFile env fi rd
              { s with polls := s.polls + 1 }).1.job_id with
          | none =>
            simp only [hjid]
            refine noneAfterCancelJob_of_noCancel _ ?_
            rw [h1]
            intro e he
            rcases List.mem_append.mp he with h' | h'
            · exact h e h'
            · exact hno e h'
          | some idj =>
            simp only [hjid]
            refine noneAfterCancelJob_of_noCancel _ ?_
            intro e he
            rcases List.mem_append.mp he with h' | h'
            · rw [h1] at h'
              rcases List.mem_append.mp h' with h'' | h''
              · exact h e h''
              · exact hno e h''
            · rw [List.mem_singleton.mp h']
              rfl
      · have hp2 : (processFile env fi rd
            { s with polls := s.polls + 1 }).2 = true := by
          by_contra hcon
          rw [Bool.not_eq_true] at hcon
          have hnil := h5 hcon
          rw [hadd, statusTransOf_append] at hnil
          rw [show statusTransOf [Event.cancelJob id k] = [id] from rfl] at hnil
          simp at hnil
        simp only [hp2, if_true]
        have hlast : noneAfterCancelJob (processFile env fi rd
            { s with polls := s.polls + 1 }).1.trace = true := by
          rw [h1, hadd, ← List.append_assoc]
          refine noneAfterCancelJob_last _ id k ?_
          intro e he
          rcases List.mem_append.mp he with h' | h'
          · exact h e h'
          · exact hpre e h'
        cases rest with
        | nil => exact hlast
        | cons q rest' =>
          obtain ⟨qf, qrd⟩ := q
          rw [runFiles]
          have hcr : cancelRead env.cancelAt (processFile env fi rd
              { s with polls := s.polls + 1 }).1.polls = true :=
            cancelRead_mono env.cancelAt n _ hfire (Nat.le_of_lt hn)
          simp only [hcr, if_true]
          exact hlast

/-! Claim theorems. -/

/-- C2: if the injected AI capability raises a transient (rate-limit or
server-unavailable) failure on every attempt, `process_page_with_gemini`
makes exactly 5 attempts with back-off delays 6, 12, 24, 48, 96 seconds
and finally returns `("", false)`; on a non-transient failure it returns
`("", false)` immediately after a single attempt, with no retry and no
delay. -/
theorem claim_C2 (e : Nat → String)
    (h : ∀ n, isRateLimit (e n) = true ∨ isServerErr (e n) = true) :
    process_page_with_gemini (fun n => .err (e n)) =
      { text := "", success := false, attempts := 5,
        delays := [6, 12, 24, 48, 96] } ∧
    ∀ m : String, isRateLimit m = false → isServerErr m = false →
      process_page_with_gemini (fun _ => .err m) =
        { text := "", success := false, attempts := 1, delays := [] } := by
  constructor
  · have hb : ∀ n, (isRateLimit (e n) || isServerErr (e n)) = true := by
      intro n
      rcases h n with h1 | h1 <;> simp [h1]
    simp [process_page_with_gemini, max_retries, processAttempt, hb, base_delay]
  · intro m h1 h2
    simp [process_page_with_gemini, max_retries, processAttempt, h1, h2]

/-- C8: `markdown_to_text` on the two-page input
`["# Title\n\nHello **world**", "- item1\n- item2"]` yields exactly
`"Title\n\nHello world\n\n--- Page Break ---\n\nitem1\nitem2"`, with the
literal separator line surrounded by blank lines between the pages and
not before the first page. -/
theorem claim_C8 :
    markdown_to_text [("# Title\n\nHello **world**"), ("- item1\n- item2")] =
      ("Title\n\nHello world\n\n--- Page Break ---\n\nitem1\nitem2") := by
  decide

/-- Round trip for serialised string arrays. -/
theorem decodeStrList_round (l : List String) :
    decodeStrList (.arr (l.map Json.str)) = l := by
  induction l with
  | nil => rfl
  | cons a t ih =>
    simp [decodeStrList, List.filterMap_cons, Json.asStr] at ih ⊢
    exact ih

/-- Round trip for serialised number arrays. -/
theorem decodeNatList_round (l : List Nat) :
    decodeNatList (.arr (l.map Json.num)) = l := by
  induction l with
  | nil => rfl
  | cons a t ih =>
    simp [decodeNatList, List.filterMap_cons, Json.asNat] at ih ⊢
    exact ih

/-- C7: reading the progress file immediately after writing a checkpoint
record returns a record equal to the one written, and reading a missing
file or a file whose contents fail to parse as JSON returns the
no-progress value `none` instead of raising. -/
theorem claim_C7 (r : Checkpoint) (f : ProgressFile) (s : String) :
    (load_progress (save_progress r.toJson f)).map checkpointOfJson = some r ∧
    load_progress (none : ProgressFile) = none ∧
    load_progress (some (.inl s)) = none := by
  refine ⟨?_, rfl, rfl⟩
  have h1 : checkpointOfJson (Checkpoint.toJson r) = r := by
    cases r with
    | mk tp cp mp fp fn jid =>
      cases jid <;>
        simp [checkpointOfJson, Checkpoint.toJson, Json.getD, Json.asNat,
          Json.asStr, decodeJobId, decodeStrList_round, decodeNatList_round,
          List.lookup]
  simp [save_progress, load_progress, h1]

/-- Splitting a newline-free character list yields a single segment. -/
theorem splitNL_eq_single (l : List Char) (h : ∀ c ∈ l, ¬c = '\n') :
    splitNL l = [l] := by
  induction l with
  | nil => rfl
  | cons c cs ih =>
    have hc : (c == '\n') = false := by
      simp [h c (List.mem_cons_self c cs)]
    have ih2 := ih fun x hx => h x (List.mem_cons_of_mem c hx)
    simp [splitNL, hc, ih2]

/-- A span substitution whose opening delimiter starts with `*` leaves
any star-free character list unchanged. -/
theorem subSpan_star_id (os close pre post : List Char) (fuel : Nat)
    (l : List Char) (h : ∀ c ∈ l, ¬c = '*') :
    subSpan ('*' :: os) close pre post fuel l = l := by
  induction fuel generalizing l with
  | zero => rfl
  | succ n ih =>
    match l, h with
    | [], _ => rfl
    | c :: cs, h =>
      have hc : ('*' == c) = false := by
        have := h c (List.mem_cons_self c cs)
        simp [beq_iff_eq]
        exact fun hh => this hh.symm
      have ih2 := ih cs fun x hx => h x (List.mem_cons_of_mem c hx)
      simp [subSpan, begMatch, hc, ih2]

/-- C10: `markdown_to_html` performs no HTML escaping.  Every page that
is a single stripped, non-empty line, carries no markdown marker (so that
no branch rewrites it), and contains no star, is interpolated verbatim
into the document shell as a paragraph — in particular characters such as
`<`, `>` and `&` in the page text are emitted raw. -/
theorem claim_C10 (s : String)
    (hnl : ∀ c ∈ s.toList, ¬c = '\n')
    (hstar : ∀ c ∈ s.toList, ¬c = '*')
    (hstrip : pyStripL s.toList = s.toList)
    (hne : s.toList.isEmpty = false)
    (hm4 : begMatch (("#### ").toList) s.toList = false)
    (hm3 : begMatch (("### ").toList) s.toList = false)
    (hm2 : begMatch (("## ").toList) s.toList = false)
    (hm1 : begMatch (("# ").toList) s.toList = false)
    (hli : begMatch (("- ").toList) s.toList = false)
    (hli2 : begMatch (("* ").toList) s.toList = false)
    (hord : ordMatchHtml s.toList = false) :
    markdown_to_html [s] =
      String.mk (htmlHead.toList ++ ("<p>").toList ++ s.toList ++
        ("</p></body></html>").toList) := by
  have hsplit : splitNL s.toList = [s.toList] := splitNL_eq_single _ hnl
  have hb1 : subSpan (("**").toList) (("**").toList) (("<strong>").toList)
      (("</strong>").toList) (s.toList.length + 1) s.toList = s.toList :=
    subSpan_star_id _ _ _ _ _ _ hstar
  have hb2 : subSpan (("*").toList) (("*").toList) (("<em>").toList)
      (("</em>").toList) (s.toList.length + 1) s.toList = s.toList :=
    subSpan_star_id _ _ _ _ _ _ hstar
  have htail : ("</p></body></html>").toList =
      ("</p>").toList ++ ("</body></html>").toList := by decide
  simp only [markdown_to_html, htmlBodyParts, pageToHtml, hsplit, List.map_nil,
    List.map_cons, List.flatten_nil, List.flatten_cons, List.append_nil,
    htmlLine, hstrip, hne, hm4, hm3, hm2, hm1, hli, hli2, hord,
    Bool.false_eq_true, if_false, Bool.or_self, hb1, hb2, htail,
    List.append_assoc]

/-- C10 witness: the page `"<script>alert(1)</script> & <b>"` satisfies
every hypothesis of `claim_C10`, so its markup-significant characters are
emitted verbatim inside the generated document. -/
theorem claim_C10_witness :
    markdown_to_html [("<script>alert(1)</script> & <b>")] =
      String.mk (htmlHead.toList ++ ("<p>").toList ++
        ("<script>alert(1)</script> & <b>").toList ++
        ("</p></body></html>").toList) :=
  claim_C10 ("<script>alert(1)</script> & <b>")
    (by decide) (by decide) (by decide) (by decide) (by decide) (by decide)
    (by decide) (by decide) (by decide) (by decide) (by decide)

/-- C1: in a fresh, never-cancelled single-file run over `P` pages in
which the AI calls of every page in `F` fail permanently (both the
forward-pass call and the retry-sweep call return `("", false)`) and the
calls of every other page succeed, the recorded `markdown_pages` has
length `P`, every page of `F` holds the empty string, and the final
failed-page set after the retry sweep is exactly the subset of `F` whose
retry attempt also failed. -/
theorem claim_C1 (P : Nat) (F : Nat → Bool) (name : String) (id : Nat)
    (fwd rtry : Nat → String × Bool)
    (hF : ∀ p, p < P → F p = true → fwd p = ("", false) ∧ rtry p = ("", false))
    (hOk : ∀ p, p < P → F p = false → (fwd p).2 = true) :
    ∃ pages failed,
      (run (freshEnv name P id fwd rtry none)).results = [(pages, failed)] ∧
      pages.length = P ∧
      (∀ p, p < P → F p = true → pages[p]? = some "") ∧
      failed = (List.range P).filter (fun p => F p && !(rtry p).2) := by
  have hfwdF : ∀ p ∈ List.range P, (!(fwd p).2) = F p := by
    intro p hp
    have hpP := List.mem_range.mp hp
    by_cases hFp : F p = true
    · rw [hFp, (hF p hpP hFp).1]
      rfl
    · rw [Bool.not_eq_true] at hFp
      rw [hFp, hOk p hpP hFp]
      rfl
  refine ⟨_, _, run_fresh_none_results name P id fwd rtry, ?_, ?_, ?_⟩
  · rw [applySucc_length, applySucc_length, List.length_replicate]
  · intro p hp hFp
    have hfails := hF p hp hFp
    rw [applySucc_get_untouched _ _ _ _ ?hret, applySucc_get_untouched _ _ _ _ ?hfwd]
    case hret =>
      intro j _ hj
      subst hj
      rw [hfails.2]
    case hfwd =>
      intro j _ hj
      subst hj
      rw [hfails.1]
    simp [List.getElem?_replicate, hp]
  · rw [List.filter_congr hfwdF, List.filter_filter]
    refine List.filter_congr ?_
    intro p _
    rw [Bool.and_comm]

/-- C1 witness: three pages with `F = {1}`, the forward call of page 1
failing permanently and its retry call failing as well, all other calls
succeeding, instantiate `claim_C1`. -/
theorem claim_C1_witness :
    ∃ pages failed,
      (run (freshEnv ("doc.pdf") 3 1
        (fun p => if p == 1 then ("", false) else (("ok"), true))
        (fun p => if p == 1 then ("", false) else (("r"), true)) none)).results =
        [(pages, failed)] ∧
      pages.length = 3 ∧
      (∀ p, p < 3 → (p == 1) = true → pages[p]? = some "") ∧
      failed = (List.range 3).filter
        (fun p => (p == 1) &&
          !((fun p : Nat => if p == 1 then (("" : String), false)
              else (("r"), true)) p).2) :=
  claim_C1 3 (fun p => p == 1) ("doc.pdf") 1
    (fun p => if p == 1 then ("", false) else (("ok"), true))
    (fun p => if p == 1 then ("", false) else (("r"), true))
    (by decide) (by decide)

/-- C3: resuming is idempotent.  For deterministic per-page AI responses,
cancelling a fresh single-file run at forward-pass page `k` and then
resuming from whatever checkpoint the cancelled run left in the slot
produces the same recorded `markdown_pages` (and failed list) as one
uninterrupted run with the same responses. -/
theorem claim_C3 (P k id : Nat) (name : String)
    (fwd rtry : Nat → String × Bool) (hk : k < P) :
    ∀ cp, (run (freshEnv name P id fwd rtry (some (1 + k)))).slot = some cp →
      (run { freshEnv name P id fwd rtry none with resume := some cp }).results =
        (run (freshEnv name P id fwd rtry none)).results := by
  intro cp hcp
  rw [run_cancel_slot name P k id fwd rtry hk] at hcp
  have hcpe : cp = ⟨P, 10 * (k / 10),
      applySucc fwd (List.replicate P "") (List.range (10 * (k / 10))),
      (List.range (10 * (k / 10))).filter (fun i => !(fwd i).2),
      name, some id⟩ := by
    injection hcp with h
    exact h.symm
  subst hcpe
  have hbk : 10 * (k / 10) ≤ k := by omega
  have hbP : 10 * (k / 10) ≤ P := Nat.le_trans hbk (Nat.le_of_lt hk)
  have happ : List.range (10 * (k / 10)) ++
      List.range' (10 * (k / 10)) (P - 10 * (k / 10)) = List.range P := by
    have h1 := List.range'_append 0 (10 * (k / 10)) (P - 10 * (k / 10)) 1
    rw [show 0 + 1 * (10 * (k / 10)) = 10 * (k / 10) from by omega,
      show P - 10 * (k / 10) + 10 * (k / 10) = P from by omega] at h1
    rw [List.range_eq_range', List.range_eq_range']
    exact h1
  have hfb : ∀ i ∈ (List.range (10 * (k / 10))).filter
      (fun i => !(fwd i).2), i < P := by
    intro i hi
    have := List.mem_range.mp (List.mem_of_mem_filter hi)
    omega
  rw [run_resume_none_results _ _ P rfl rfl rfl rfl hbP hfb,
    run_fresh_none_results]
  simp only [freshEnv, ← applySucc_append, ← List.filter_append, happ]

/-- C3 witness: with 17 pages, deterministic processors failing on pages
2, 7 and 12 (page 7 unrecoverable on retry), cancelling at page 13 and
resuming from the slot checkpoint reproduces the uninterrupted result. -/
theorem claim_C3_witness :
    ∃ cp, (run (freshEnv ("b.pdf") 17 4
        (fun p => if p % 5 == 2 then ("", false) else (("t"), true))
        (fun p => if p == 7 then ("", false) else (("r"), true))
        (some (1 + 13)))).slot = some cp ∧
      (run { freshEnv ("b.pdf") 17 4
          (fun p => if p % 5 == 2 then ("", false) else (("t"), true))
          (fun p => if p == 7 then ("", false) else (("r"), true))
          none with resume := some cp }).results =
        (run (freshEnv ("b.pdf") 17 4
          (fun p => if p % 5 == 2 then ("", false) else (("t"), true))
          (fun p => if p == 7 then ("", false) else (("r"), true))
          none)).results := by
  refine ⟨⟨17, 10,
    applySucc (fun p => if p % 5 == 2 then ("", false) else (("t"), true))
      (List.replicate 17 "") (List.range 10),
    (List.range 10).filter
      (fun i => !((fun p => if p % 5 == 2 then (("" : String), false)
        else (("t"), true)) i).2),
    ("b.pdf"), some 4⟩, ?_, ?_⟩
  · exact run_cancel_slot ("b.pdf") 17 13 4
      (fun p => if p % 5 == 2 then ("", false) else (("t"), true))
      (fun p => if p == 7 then ("", false) else (("r"), true)) (by decide)
  · exact claim_C3 17 13 4 ("b.pdf")
      (fun p => if p % 5 == 2 then ("", false) else (("t"), true))
      (fun p => if p == 7 then ("", false) else (("r"), true)) (by decide) _
      (run_cancel_slot ("b.pdf") 17 13 4
        (fun p => if p % 5 == 2 then ("", false) else (("t"), true))
        (fun p => if p == 7 then ("", false) else (("r"), true)) (by decide))

/-- C2 witness: the always-rate-limited capability `str(e) = "429"` is
transient on every attempt, and `"bad request"` is classified as
non-transient, so `claim_C2` applies at these concrete inputs. -/
theorem claim_C2_witness :
    process_page_with_gemini (fun _ => .err ("429")) =
      { text := "", success := false, attempts := 5,
        delays := [6, 12, 24, 48, 96] } ∧
    process_page_with_gemini (fun _ => .err ("bad request")) =
      { text := "", success := false, attempts := 1, delays := [] } := by
  have h := claim_C2 (fun _ => ("429"))
    (fun _ => Or.inl (show isRateLimit ("429") = true by decide))
  exact ⟨h.1, h.2 ("bad request") (by decide) (by decide)⟩

/-- C4 counterexample: in a fresh two-page run cancelled at forward page
index 1 (one page already completed), no checkpoint is written at the
moment of cancellation — the `cancelled` ledger update is the last event
of the trace, and the checkpoint on disk is still the initial one with
`completed_pages = 0`, not one reflecting progress up to the
cancellation. -/
theorem claim_C4_cex :
    (run (freshEnv "a" 2 1 (fun _ => ("t", true)) (fun _ => ("r", true))
        (some 2))).trace =
      [Event.createJob "a" 2 (some 1),
       Event.saveProgress ⟨2, 0, ["", ""], [], "a", some 1⟩,
       Event.processPage 0 0 false,
       Event.cancelJob 1 1] ∧
    (run (freshEnv "a" 2 1 (fun _ => ("t", true)) (fun _ => ("r", true))
        (some 2))).slot = some ⟨2, 0, ["", ""], [], "a", some 1⟩ :=
  ⟨rfl, rfl⟩

/-- C4 (amended): the checkpoint record is persisted every 10 pages
during the forward pass — in a fresh uncancelled run, for every `j ≥ 1`
with `10*j ≤ P`, the trace contains a checkpoint write carrying
`completed_pages = 10*j` together with the pages and failures
accumulated up to that boundary — but not at the moment of cancellation:
in every run, the `cancelled` ledger update, when pushed, is the very
last event of the trace, so no checkpoint write (indeed nothing at all)
happens at or after the cancellation; the checkpoint on disk remains the
last periodic one. -/
theorem claim_C4 :
    (∀ (name : String) (P id : Nat) (fwd rtry : Nat → String × Bool)
        (j : Nat), 1 ≤ j → 10 * j ≤ P →
        Event.saveProgress
            ⟨P, 10 * j,
              applySucc fwd (List.replicate P "") (List.range (10 * j)),
              (List.range (10 * j)).filter (fun i => !(fwd i).2),
              name, some id⟩ ∈
          (run (freshEnv name P id fwd rtry none)).trace) ∧
    (∀ env : Env, noneAfterCancelJob (run env).trace = true) := by
  constructor
  · intro name P id fwd rtry j hj hjP
    rw [run_fresh_unfold name P id fwd rtry none rfl]
    obtain ⟨tail, htail⟩ :=
      fileBody_trace_infix (freshEnv name P id fwd rtry none) 0
        { polls := 1, creates := 1, job_id := some id,
          slot := some ⟨P, 0, List.replicate P "", [], name, some id⟩,
          trace := [Event.createJob name P (some id),
            Event.saveProgress ⟨P, 0, List.replicate P "", [], name, some id⟩],
          results := [] }
        P P 0 (List.replicate P "") []
    rw [htail]
    have hr : List.range' 0 (P - 0) = List.range P := by
      rw [Nat.sub_zero, List.range_eq_range']
    rw [hr]
    refine List.mem_append.mpr (Or.inl (List.mem_append.mpr (Or.inr ?_)))
    exact fwdStep_none_save_mem fwd (some id) 0 P P name P j hj hjP
      (fun i hi => List.mem_range.mp hi)
      ⟨List.replicate P "", [], 1,
        some ⟨P, 0, List.replicate P "", [], name, some id⟩, [], none, false⟩
      rfl rfl
  · intro env
    cases hres : env.resume with
    | some cp =>
      have hr : run env =
          runFiles env [(0, some cp)] ⟨0, 0, none, none, [], []⟩ := by
        rw [run, hres]
      rw [hr]
      refine runFiles_cancelLast env _ _ ?_
      intro e he
      simp at he
    | none =>
      have hr : run env =
          runFiles env ((List.range env.nfiles).map fun i => (i, none))
            ⟨0, 0, none, none, [], []⟩ := by
        rw [run, hres]
      rw [hr]
      refine runFiles_cancelLast env _ _ ?_
      intro e he
      simp at he

/-- C4 witness: with ten always-succeeding pages the boundary checkpoint
write at page 10 is in the trace, and the same run's trace trivially
passes the nothing-after-cancellation check. -/
theorem claim_C4_witness :
    1 ≤ 1 ∧ 10 * 1 ≤ 10 ∧
    (Event.saveProgress
        ⟨10, 10 * 1,
          applySucc (fun _ => ("t", true)) (List.replicate 10 "")
            (List.range (10 * 1)),
          (List.range (10 * 1)).filter
            (fun i => !((fun (_ : Nat) => (("t" : String), true)) i).2),
          "a", some 1⟩ ∈
      (run (freshEnv "a" 10 1 (fun _ => ("t", true)) (fun _ => ("r", true))
        none)).trace) ∧
    noneAfterCancelJob
      (run (freshEnv "a" 10 1 (fun _ => ("t", true)) (fun _ => ("r", true))
        none)).trace = true :=
  ⟨by decide, by decide,
   claim_C4.1 "a" 10 1 (fun _ => ("t", true)) (fun _ => ("r", true)) 1
     (by decide) (by decide),
   claim_C4.2 (freshEnv "a" 10 1 (fun _ => ("t", true))
     (fun _ => ("r", true)) none)⟩

/-- C5 counterexample: a one-page run whose only page fails and whose
cancel flag is first seen during the retry sweep pushes no `cancelled`
ledger update — indeed no status transition at all: the trace ends after
the failed page call, the sweep silently breaks, and the job is left in
`processing`. -/
theorem claim_C5_cex :
    (run (freshEnv "a" 1 1 (fun _ => ("", false)) (fun _ => ("r", true))
        (some 3))).trace =
      [Event.createJob "a" 1 (some 1),
       Event.saveProgress ⟨1, 0, [""], [], "a", some 1⟩,
       Event.processPage 0 0 false] := rfl

/-- C5 (amended): a cancellation first detected during the forward pass,
before page `k` of a fresh `P`-page run, pushes exactly one `cancelled`
ledger update, carrying `k` — the number of pages completed so far; a
cancellation not detected during the forward pass (one whose flag first
reads true at the retry-sweep gate or inside the sweep, i.e. from the
run's `P+1`-th poll on) pushes no `cancelled` update at all. -/
theorem claim_C5 :
    (∀ (name : String) (P id k : Nat) (fwd rtry : Nat → String × Bool),
        k < P →
        ((run (freshEnv name P id fwd rtry (some (1 + k)))).trace.filter
            isCancelEv) = [Event.cancelJob id k]) ∧
    (∀ (name : String) (P id t : Nat) (fwd rtry : Nat → String × Bool),
        P + 1 ≤ t →
        ((run (freshEnv name P id fwd rtry (some t))).trace.filter
            isCancelEv) = []) := by
  constructor
  · intro name P id k fwd rtry hk
    have hc0 : cancelRead (some (1 + k)) 0 = false := by
      simp only [cancelRead, decide_eq_false_iff_not]
      omega
    rw [run_fresh_unfold name P id fwd rtry (some (1 + k)) hc0]
    set env := freshEnv name P id fwd rtry (some (1 + k)) with henv
    set s2 : Sys :=
      { polls := 1, creates := 1, job_id := some id,
        slot := some ⟨P, 0, List.replicate P "", [], name, some id⟩,
        trace := [Event.createJob name P (some id),
          Event.saveProgress ⟨P, 0, List.replicate P "", [], name, some id⟩],
        results := [] } with hs2
    set st0 : LoopSt :=
      ⟨List.replicate P "", [], 1,
        some ⟨P, 0, List.replicate P "", [], name, some id⟩, [], none, false⟩
      with hst0
    have hsplit : List.range' 0 (P - 0) =
        List.range k ++ k :: List.range' (k + 1) (P - k - 1) := by
      rw [Nat.sub_zero, List.range_eq_range']
      have h1 := List.range'_append 0 k (P - k) 1
      rw [show 0 + 1 * k = k from by omega,
        show P - k + k = P from by omega] at h1
      have h2 : List.range' k (P - k) = k :: List.range' (k + 1) (P - k - 1) := by
        rw [show P - k = (P - k - 1) + 1 from by omega]
        simp [List.range'_succ]
      rw [← h1, h2]
    have hbk : ∀ x ∈ List.range k, x < P := fun x hx =>
      Nat.lt_trans (List.mem_range.mp hx) hk
    have hnf : ∀ j, j < (List.range k).length →
        cancelRead (some (1 + k)) (st0.polls + j) = false := by
      intro j hj
      rw [List.length_range] at hj
      show cancelRead (some (1 + k)) (1 + j) = false
      simp [cancelRead]
      omega
    have hfire : cancelRead (some (1 + k)) (st0.polls + (List.range k).length) =
        true := by
      rw [List.length_range]
      show cancelRead (some (1 + k)) (1 + k) = true
      simp [cancelRead]
    have hst : fwdStep fwd (some (1 + k)) (some id) 0 P P name st0
        (List.range' 0 (P - 0)) =
        cancelBreak (some id) k
          (fwdStep fwd none (some id) 0 P P name st0 (List.range k)) := by
      rw [hsplit]
      exact fwdStep_fire_split fwd (some (1 + k)) (some id) 0 P P name
        (List.range k) k _ st0 rfl rfl hbk hnf hfire
    have hstop : ((fwdStep (env.fwd 0) env.cancelAt s2.job_id 0 P P
        (env.fname 0)
        ⟨List.replicate P "", [], s2.polls, s2.slot, [], none, false⟩
        (List.range' 0 (P - 0))).stopped).isSome = true := by
      show ((fwdStep fwd (some (1 + k)) (some id) 0 P P name st0
        (List.range' 0 (P - 0))).stopped).isSome = true
      rw [hst]
      simp [cancelBreak]
    obtain ⟨_, _, _, hfbtr, _, _⟩ :=
      fileBody_stopped_char env 0 s2 P P 0 (List.replicate P "") [] hstop
    rw [hfbtr]
    have hstw : (fwdStep (env.fwd 0) env.cancelAt s2.job_id 0 P P
        (env.fname 0)
        ⟨List.replicate P "", [], s2.polls, s2.slot, [], none, false⟩
        (List.range' 0 (P - 0))).trace =
        (fwdStep fwd none (some id) 0 P P name st0 (List.range k)).trace ++
          [Event.cancelJob id k] := by
      show (fwdStep fwd (some (1 + k)) (some id) 0 P P name st0
        (List.range' 0 (P - 0))).trace = _
      rw [hst]
      simp [cancelBreak]
    rw [hstw]
    have hS : (fwdStep fwd none (some id) 0 P P name st0
        (List.range k)).trace.filter isCancelEv = [] := by
      obtain ⟨add, htr, _, hnm, _⟩ :=
        fwdStep_shape fwd none (some id) 0 P P name (List.range k) st0 rfl
      obtain ⟨_, _, _, hcs, _⟩ :=
        fwdStep_none_char fwd (some id) 0 P P name (List.range k) st0
          rfl rfl hbk
      rw [htr, show st0.trace = ([] : List Event) from rfl, List.nil_append]
      exact filter_cancel_eq_nil add fun e he =>
        isCancelEv_false_of_isTransEv e (hnm hcs e he)
    rw [List.filter_append, List.filter_append, hS,
      show s2.trace.filter isCancelEv = [] from rfl]
    rfl
  · intro name P id t fwd rtry ht
    have hc0 : cancelRead (some t) 0 = false := by
      simp only [cancelRead, decide_eq_false_iff_not]
      omega
    rw [run_fresh_unfold name P id fwd rtry (some t) hc0]
    set env := freshEnv name P id fwd rtry (some t) with henv
    set s2 : Sys :=
      { polls := 1, creates := 1, job_id := some id,
        slot := some ⟨P, 0, List.replicate P "", [], name, some id⟩,
        trace := [Event.createJob name P (some id),
          Event.saveProgress ⟨P, 0, List.replicate P "", [], name, some id⟩],
        results := [] } with hs2
    obtain ⟨add, htr, _, _, _, _, _, hdich⟩ :=
      fileBody_shape env 0 s2 P P 0 (List.replicate P "") []
    rcases hdich with hno | ⟨pre, idx, kx, _, _, _, hstop⟩
    · rw [htr, List.filter_append,
        show s2.trace.filter isCancelEv = [] from rfl,
        filter_cancel_eq_nil add hno]
      rfl
    · exfalso
      have hnf : ∀ j, j < (List.range' 0 (P - 0)).length →
          cancelRead (some t) (1 + j) = false := by
        intro j hj
        rw [List.length_range'] at hj
        simp only [cancelRead, decide_eq_false_iff_not]
        omega
      have hb : ∀ i ∈ List.range' 0 (P - 0), i < P := by
        intro i hi
        rw [List.mem_range'_1] at hi
        omega
      have hstop2 : ((fwdStep fwd (some t) (some id) 0 P P name
          ⟨List.replicate P "", [], 1,
            some ⟨P, 0, List.replicate P "", [], name, some id⟩, [], none,
            false⟩ (List.range' 0 (P - 0))).stopped).isSome = true := hstop
      have heq : fwdStep fwd (some t) (some id) 0 P P name
          ⟨List.replicate P "", [], 1,
            some ⟨P, 0, List.replicate P "", [], name, some id⟩, [], none,
            false⟩ (List.range' 0 (P - 0)) =
          fwdStep fwd none (some id) 0 P P name
            ⟨List.replicate P "", [], 1,
              some ⟨P, 0, List.replicate P "", [], name, some id⟩, [], none,
              false⟩ (List.range' 0 (P - 0)) :=
        fwdStep_nofire fwd (some t) (some id) 0 P P name
          (List.range' 0 (P - 0)) _ rfl hnf
      rw [heq] at hstop2
      obtain ⟨_, _, _, hcs, _⟩ :=
        fwdStep_none_char fwd (some id) 0 P P name (List.range' 0 (P - 0))
          ⟨List.replicate P "", [], 1,
            some ⟨P, 0, List.replicate P "", [], name, some id⟩, [], none,
            false⟩ rfl rfl hb
      rw [hcs] at hstop2
      simp at hstop2

/-- C5 witness: a two-page run cancelled before forward page 0 pushes
exactly the one `cancelled` update carrying 0, and the same run with the
cancel point past the sweep gate pushes none. -/
theorem claim_C5_witness :
    0 < 2 ∧
    ((run (freshEnv "a" 2 1 (fun _ => ("t", true)) (fun _ => ("r", true))
        (some 1))).trace.filter isCancelEv) = [Event.cancelJob 1 0] ∧
    2 + 1 ≤ 3 ∧
    ((run (freshEnv "a" 2 1 (fun _ => ("t", true)) (fun _ => ("r", true))
        (some 3))).trace.filter isCancelEv) = [] :=
  ⟨by decide,
   claim_C5.1 "a" 2 1 0 (fun _ => ("t", true)) (fun _ => ("r", true))
     (by decide),
   by decide,
   claim_C5.2 "a" 2 1 3 (fun _ => ("t", true)) (fun _ => ("r", true))
     (by decide)⟩

/-- C6 counterexample: in the two-file batch `staleEnv` the first file's
job 1 is completed, and the second file's rasterization failure then
pushes a `failed` update for the same id 1 — the `job_id` variable is
stale across files — so a further transition is attempted after job 1
already reached `completed`. -/
theorem claim_C6_cex :
    (run staleEnv).trace =
      [Event.createJob "a" 1 (some 1),
       Event.saveProgress ⟨1, 0, [""], [], "a", some 1⟩,
       Event.processPage 0 0 false,
       Event.completeJob 1 0, Event.clearProgress, Event.failJob 1] ∧
    statusTransOf (run staleEnv).trace = [1, 1] :=
  ⟨rfl, rfl⟩

/-- A one-file run attempts at most one status transition in its body,
and at most one top-level `failed` push when an exception escapes (in
which case the body pushed none), so the attempted transition ids never
repeat. -/
theorem runFiles_single_nodup (env : Env) (fi : Nat)
    (rd : Option Checkpoint) :
    (statusTransOf (runFiles env [(fi, rd)]
      ⟨0, 0, none, none, [], []⟩).trace).Nodup := by
  rw [runFiles]
  by_cases hc : cancelRead env.cancelAt
      (⟨0, 0, none, none, [], []⟩ : Sys).polls = true
  · simp only [hc, if_true]
    exact List.nodup_nil
  · simp only [hc, Bool.false_eq_true, if_false]
    obtain ⟨add, h1, _, _, h4, h5, _⟩ :=
      processFile_shape env fi rd
        { (⟨0, 0, none, none, [], []⟩ : Sys) with polls := 0 + 1 }
    by_cases hp2 : (processFile env fi rd
        { (⟨0, 0, none, none, [], []⟩ : Sys) with polls := 0 + 1 }).2 = true
    · simp only [hp2, if_true]
      refine nodup_of_len_le_one _ ?_
      rw [show runFiles env [] (processFile env fi rd
          { (⟨0, 0, none, none, [], []⟩ : Sys) with polls := 0 + 1 }).1 =
          (processFile env fi rd
            { (⟨0, 0, none, none, [], []⟩ : Sys) with polls := 0 + 1 }).1
        from rfl]
      rw [h1]
      simpa using h4
    · rw [Bool.not_eq_true] at hp2
      simp only [hp2, Bool.false_eq_true, if_false]
      have hnil := h5 hp2
      cases hjid : (processFile env fi rd
          { (⟨0, 0, none, none, [], []⟩ : Sys) with
            polls := 0 + 1 }).1.job_id with
      | none =>
        simp only [hjid]
        refine nodup_of_len_le_one _ ?_
        rw [h1]
        simpa using h4
      | some idj =>
        simp only [hjid]
        refine nodup_of_len_le_one _ ?_
        show (statusTransOf ((processFile env fi rd
          { (⟨0, 0, none, none, [], []⟩ : Sys) with polls := 0 + 1 }).1.trace
            ++ [Event.failJob idj])).length ≤ 1
        rw [h1, statusTransOf_append, statusTransOf_append, hnil]
        simp [statusTransOf]

/-- C6 (amended): for every single-file execution of the orchestrator —
a fresh run over one uploaded file, or any run resumed from a checkpoint
— once a job id has been set to `completed`, `failed` or `cancelled`, no
further status transition is attempted for it: the attempted transition
ids contain no duplicate.  (A fresh batch over several files violates
the original claim through the stale `job_id` variable: a file that
raises before its own `create_job` call pushes `failed` for the previous
file's already-completed job.) -/
theorem claim_C6 (env : Env)
    (h : env.nfiles ≤ 1 ∨ env.resume.isSome = true) :
    (statusTransOf (run env).trace).Nodup := by
  cases hres : env.resume with
  | some cp =>
    have hr : run env =
        runFiles env [(0, some cp)] ⟨0, 0, none, none, [], []⟩ := by
      rw [run, hres]
    rw [hr]
    exact runFiles_single_nodup env 0 (some cp)
  | none =>
    have hn : env.nfiles ≤ 1 := by
      rcases h with h2 | h2
      · exact h2
      · rw [hres] at h2
        simp at h2
    cases hnf : env.nfiles with
    | zero =>
      have hr : run env = ⟨0, 0, none, none, [], []⟩ := by
        rw [run, hres, hnf]
        rfl
      rw [hr]
      exact List.nodup_nil
    | succ n =>
      have hn0 : n = 0 := by
        rw [hnf] at hn
        omega
      subst hn0
      have hr : run env =
          runFiles env [(0, none)] ⟨0, 0, none, none, [], []⟩ := by
        rw [run, hres, hnf]
        rfl
      rw [hr]
      exact runFiles_single_nodup env 0 none

/-- C6 witness: a fresh one-file run satisfies the single-file condition
and its attempted transition ids have no duplicate. -/
theorem claim_C6_witness :
    (freshEnv "a" 1 1 (fun _ => ("t", true)) (fun _ => ("r", true))
        none).nfiles ≤ 1 ∧
    (statusTransOf (run (freshEnv "a" 1 1 (fun _ => ("t", true))
        (fun _ => ("r", true)) none)).trace).Nodup :=
  ⟨by decide,
   claim_C6 (freshEnv "a" 1 1 (fun _ => ("t", true)) (fun _ => ("r", true))
       none) (Or.inl (by decide))⟩

/-- C9: for a fresh (non-resumed) single-file run whose `create_job`
call returns no id, the orchestrator aborts before processing any page —
its trace holds no page-processing call and no checkpoint write; and a
resumed run never invokes `create_job` at all. -/
theorem claim_C9 :
    (∀ env : Env, env.nfiles = 1 → env.resume = none →
        env.createRes 0 = none →
        ∀ e ∈ (run env).trace, isPageEv e = false ∧ isSaveEv e = false) ∧
    (∀ (env : Env) (cp : Checkpoint), env.resume = some cp →
        ∀ e ∈ (run env).trace, isCreateEv e = false) := by
  constructor
  · intro env h1 h2 h3 e he
    have hr : run env =
        runFiles env [(0, none)] ⟨0, 0, none, none, [], []⟩ := by
      rw [run, h2, h1]
      rfl
    rw [hr, runFiles] at he
    by_cases hc : cancelRead env.cancelAt
        (⟨0, 0, none, none, [], []⟩ : Sys).polls = true
    · simp only [hc, if_true] at he
      simp at he
    · simp only [hc, Bool.false_eq_true, if_false] at he
      cases hrast : env.rasterize 0 with
      | none =>
        have hpf : processFile env 0 none
            { (⟨0, 0, none, none, [], []⟩ : Sys) with polls := 0 + 1 } =
            ({ (⟨0, 0, none, none, [], []⟩ : Sys) with polls := 0 + 1 },
             false) := by
          rw [processFile, hrast]
        rw [hpf] at he
        simp at he
      | some total =>
        have hpf : processFile env 0 none
            { (⟨0, 0, none, none, [], []⟩ : Sys) with polls := 0 + 1 } =
            ({ (⟨0, 0, none, none, [], []⟩ : Sys) with
                polls := 0 + 1
                creates := 0 + 1
                trace := [Event.createJob (env.fname 0) total none]
                job_id := none }, false) := by
          simp only [processFile, hrast, h3]
          rfl
        rw [hpf] at he
        simp at he
        subst he
        exact ⟨rfl, rfl⟩
  · intro env cp hres e he
    have hr : run env =
        runFiles env [(0, some cp)] ⟨0, 0, none, none, [], []⟩ := by
      rw [run, hres]
    rw [hr, runFiles] at he
    by_cases hc : cancelRead env.cancelAt
        (⟨0, 0, none, none, [], []⟩ : Sys).polls = true
    · simp only [hc, if_true] at he
      simp at he
    · simp only [hc, Bool.false_eq_true, if_false] at he
      obtain ⟨add, h1, _, hcr, _, _, _⟩ :=
        processFile_shape env 0 (some cp)
          { (⟨0, 0, none, none, [], []⟩ : Sys) with polls := 0 + 1 }
      have hcr2 := hcr rfl
      by_cases hp2 : (processFile env 0 (some cp)
          { (⟨0, 0, none, none, [], []⟩ : Sys) with polls := 0 + 1 }).2 =
          true
      · simp only [hp2, if_true] at he
        have he2 : e ∈ ({ (⟨0, 0, none, none, [], []⟩ : Sys) with
            polls := 0 + 1 }).trace ++ add := by
          rw [← h1]
          exact he
        rcases List.mem_append.mp he2 with h' | h'
        · simp at h'
        · exact hcr2 e h'
      · rw [Bool.not_eq_true] at hp2
        simp only [hp2, Bool.false_eq_true, if_false] at he
        cases hjid : (processFile env 0 (some cp)
            { (⟨0, 0, none, none, [], []⟩ : Sys) with
              polls := 0 + 1 }).1.job_id with
        | none =>
          simp only [hjid] at he
          rw [h1] at he
          rcases List.mem_append.mp he with h' | h'
          · simp at h'
          · exact hcr2 e h'
        | some idj =>
          simp only [hjid] at he
          have he2 : e ∈ (({ (⟨0, 0, none, none, [], []⟩ : Sys) with
              polls := 0 + 1 }).trace ++ add) ++ [Event.failJob idj] := by
            rw [← h1]
            exact he
          rcases List.mem_append.mp he2 with h' | h'
          · rcases List.mem_append.mp h' with h'' | h''
            · simp at h''
            · exact hcr2 e h''
          · rw [List.mem_singleton.mp h']
            rfl

/-- C9 witness: in `ledgerDownEnv` (fresh, `create_job` returns no id)
every trace event is neither a page call nor a checkpoint write — in
particular the only event, the failed `create_job` call — and in
`resumeEnv` (resumed run) every trace event is not a `create_job` call —
in particular the first page call made after resuming. -/
theorem claim_C9_witness :
    (isPageEv (Event.createJob "a" 2 none) = false ∧
      isSaveEv (Event.createJob "a" 2 none) = false) ∧
    isCreateEv (Event.processPage 0 1 false) = false := by
  constructor
  · refine claim_C9.1 ledgerDownEnv rfl rfl rfl
      (Event.createJob "a" 2 none) ?_
    rw [show (run ledgerDownEnv).trace = [Event.createJob "a" 2 none]
      from rfl]
    exact List.mem_singleton.mpr rfl
  · refine claim_C9.2 resumeEnv ⟨2, 1, ["x", ""], [], "a", some 3⟩ rfl
      (Event.processPage 0 1 false) ?_
    rw [show (run resumeEnv).trace = [Event.processPage 0 1 false,
      Event.completeJob 3 0, Event.clearProgress] from rfl]
    exact List.mem_cons_self _ _

end PDF
